import Mathlib

/-!
# MagiskHide hide list

A model of `native/jni/magiskhide/hide_utils.cpp`: the hide list
(`hide_set`), the uid index derived from it (`uid_proc_map`), the procfs
scanner, name validation, the add / remove / list commands and the
enable / disable controller, followed by theorems about them.

Conventions of the model.

* A `const char *` or `std::string` value is the list of its characters
  (`Name`); the terminating NUL is not part of the list.
* The global variables of the file are the fields of `State`; a function
  that reads or writes them takes a `State` and returns the new one.
* Everything a function learns from outside the file during one call (the
  process table, the data directories, whether a database statement or a
  system call succeeds) is read from an `Env` value.
* Constants and flags declared in headers that are not part of the sources
  are the fields of `Config`.
* Every command runs to completion before the next one starts; the mutex
  `hide_state_lock` is therefore not represented.
* The static `DIR *procfp` is the field `procfp` of `State`, true once the
  handle is open. A scan through a null handle does not return (`rewinddir`
  dereferences its argument); a function that can reach such a scan returns an
  `Option`, and `none` says that the call does not return.
-/

namespace MagiskHide

/-- Contents of a C string or of a `std::string`. -/
abbrev Name := List Char

/-- Element of `hide_set`: the pair `<pkg, process>`. -/
abbrev HideEntry := Name × Name

/-- Status codes returned by the functions of the file. The enumerations that
declare them (`daemon.hpp`, `magiskhide.hpp`) are not among the sources; the
constants are taken to be pairwise distinct. -/
inductive Code where
  | DAEMON_ERROR
  | DAEMON_SUCCESS
  | HIDE_IS_ENABLED
  | HIDE_ITEM_EXIST
  | HIDE_ITEM_NOT_EXIST
  | HIDE_NO_NS
  | HIDE_INVALID_PKG
  deriving DecidableEq, Repr

/-- Constants, macros and flags that the file uses and other files define. -/
structure Config where
  /-- The macro `ISOLATED_MAGIC`: the package name that stands for isolated processes. -/
  ISOLATED_MAGIC : Name
  /-- The macro `APP_DATA_DIR`. -/
  APP_DATA_DIR : Name
  /-- The global flag `zygisk_enabled`. -/
  zygisk_enabled : Bool
  /-- The global `SDK_INT`. -/
  SDK_INT : Int
  /-- The global `MAGISKTMP`. -/
  MAGISKTMP : Name
  /-- The settings key `DB_SETTING_KEYS[HIDE_CONFIG]`. -/
  HIDE_CONFIG_KEY : Name

/-- One entry of `/proc` as the scanner sees it: `pid` is `parse_int(d_name)`,
`buf` is the text in `buf` when the string test of `proc_name_match` runs
(`none` when `open_file` fails on `/proc/<pid>/cmdline`). -/
structure ProcEntry where
  pid : Int
  buf : Option Name
  deriving DecidableEq, Repr

/-- What one call observes of the world outside the file. -/
structure Env where
  /-- The entries of `/proc` in `readdir` order. -/
  procs : List ProcEntry
  /-- The names `xreaddir` yields for `APP_DATA_DIR`; `none` when `open_dir` fails. -/
  users : Option (List Name)
  /-- The call `stat(path, &st)`: `some st_uid` when it returns 0. -/
  stat : Name → Option Nat
  /-- The value held by the uninitialised `st.st_uid` of `update_uid_map`. -/
  st_uid0 : Nat
  /-- Whether `db_exec` of the INSERT or DELETE statement of this call succeeds. -/
  db_ok : Bool
  /-- Outcome of `SELECT * FROM hidelist`: `none` when it succeeds, `some n` when
  it returns an error after passing `n` rows to the callback. -/
  select_fail : Option Nat
  /-- Whether `db_exec` of the REPLACE statement of `update_hide_config` succeeds. -/
  config_ok : Bool
  /-- Whether `access("/proc/self/ns/mnt", F_OK)` returns 0. -/
  ns_ok : Bool
  /-- Whether `opendir("/proc")` returns a handle. -/
  opendir_ok : Bool
  /-- Whether `new_daemon_thread(&proc_monitor)` returns 0. -/
  thread_ok : Bool
  /-- The value returned by `xinotify_init1(IN_CLOEXEC)`. -/
  inotify_init : Int

/-- Modelled from the spec: the persistent row store behind `db_exec`
(`db.hpp` and its implementation are not among the sources). The spec
describes it as a table of `(package_name, process)` rows, one per hide
entry, with insert and delete to mutate it, and a settings key holding the
enabled flag. `log` records the text of every statement given to `db_exec`. -/
structure Db where
  hidelist : List HideEntry
  hide_config : Bool
  log : List Name
  deriving DecidableEq, Repr

/-- The global variables of the file, the store, and the signals sent. -/
structure State where
  /-- The variable `hide_state`. -/
  hide_state : Bool
  /-- The variable `hide_set`, in iteration order. -/
  hide_set : List HideEntry
  /-- The variable `uid_proc_map`, in key order. -/
  uid_proc_map : List (Int × List Name)
  /-- The variable `inotify_fd`. -/
  inotify_fd : Int
  /-- Whether `procfp` is non-null. -/
  procfp : Bool
  /-- Whether the `proc_monitor` thread started by this file is running. -/
  monitor : Bool
  /-- The persistent store. -/
  db : Db
  /-- The pids that were sent `SIGKILL`, oldest first. -/
  killed : List Int
  deriving DecidableEq, Repr

/-- State at daemon start: the static initialisers of the file, over whatever
the store holds. -/
def State.initial (db : Db) : State :=
  { hide_state := false, hide_set := [], uid_proc_map := [], inotify_fd := -1,
    procfp := false, monitor := false, db := db, killed := [] }

/-! ## Strings -/

/-- The function `str_eql`. -/
def str_eql (s ss : Name) : Bool := s == ss

/-- Modelled from the spec: `str_starts` of `utils.hpp`, which is not among the
sources; the spec calls it the name-prefix match. `str_starts s ss` holds when
`s` begins with `ss`. -/
def str_starts (s ss : Name) : Bool := ss.isPrefixOf s

/-- Modelled from the spec: `str_ends` of `utils.hpp`, which is not among the
sources; the spec calls it the name-suffix match. `str_ends s ss` holds when
`s` ends with `ss`. -/
def str_ends (s ss : Name) : Bool := ss.isSuffixOf s

/-- The order of `std::string`: `operator<`, comparing character codes. -/
def str_lt : Name → Name → Bool
  | [], [] => false
  | [], _ :: _ => true
  | _ :: _, [] => false
  | a :: s, b :: t =>
    if a.toNat < b.toNat then true
    else if b.toNat < a.toNat then false
    else str_lt s t

/-- The order of `std::pair<string, string>`: `operator<`. -/
def pair_lt (x y : HideEntry) : Bool :=
  str_lt x.1 y.1 || (!str_lt y.1 x.1 && str_lt x.2 y.2)

/-- The call `hide_set.emplace(pkg, proc)` on a `std::set`: the element is put
at its place in the order unless an equivalent one is there. -/
def set_emplace (x : HideEntry) : List HideEntry → List HideEntry
  | [] => [x]
  | y :: ys =>
    if pair_lt x y then x :: y :: ys
    else if pair_lt y x then y :: set_emplace x ys
    else y :: ys

/-- The call `uid_proc_map.find(k)`. -/
def map_find (m : List (Int × List Name)) (k : Int) : Option (List Name) :=
  match m with
  | [] => none
  | (k', v) :: rest => if k' = k then some v else map_find rest k

/-- The statement `uid_proc_map[k].emplace_back(v)` on a `std::map`. -/
def map_append (m : List (Int × List Name)) (k : Int) (v : Name) : List (Int × List Name) :=
  match m with
  | [] => [(k, [v])]
  | (k', vs) :: rest =>
    if k < k' then (k, [v]) :: (k', vs) :: rest
    else if k' < k then (k', vs) :: map_append rest k v
    else (k', vs ++ [v]) :: rest

/-- Modelled from the spec: the macro `to_app_id` of `magisk.hpp`, which is not
among the sources; the spec describes it as removing the per-user multiplier
100000 from a uid. On an `int` the remainder of C truncates towards zero. -/
def to_app_id (uid : Int) : Int := Int.tmod uid 100000

/-- Conversion of an `int` to `size_t` (64 bits), as the comparison of a string
length with `max_len` performs it. -/
def to_size_t (n : Int) : Nat := (n % 2 ^ 64).toNat

/-! ## Process scanner -/

/-- The function `crawl_procfs(DIR *dir, fn)`: visit the entries with a
positive pid until the visitor returns false. The visitor threads the list of
killed pids. -/
def crawl_procfs (fn : ProcEntry → List Int → Bool × List Int) :
    List ProcEntry → List Int → List Int
  | [], killed => killed
  | dp :: rest, killed =>
    if 0 < dp.pid then
      let r := fn dp killed
      if r.1 then crawl_procfs fn rest r.2 else r.2
    else crawl_procfs fn rest killed

/-- The template `proc_name_match<str_op>`. -/
def proc_name_match (str_op : Name → Name → Bool) (dp : ProcEntry) (name : Name) : Bool :=
  match dp.buf with
  | some buf => str_op buf name
  | none => false

/-- The function `kill_process`. -/
def kill_process (procs : List ProcEntry) (name : Name) (multi : Bool)
    (filter : ProcEntry → Name → Bool) (killed : List Int) : List Int :=
  crawl_procfs
    (fun dp k => if filter dp name then (multi, k ++ [dp.pid]) else (true, k))
    procs killed

/-- The scan of `kill_process` as the program reaches it, through the static
handle: the overload `crawl_procfs(fn)` starts with `rewinddir(procfp)`. The argument
`procfp` says whether the handle is non-null. On a null handle `rewinddir`
dereferences it, the daemon faults and the call returns nothing; on an open
handle the scan runs over the entries of `/proc`. -/
def kill_process_procfp (procfp : Bool) (procs : List ProcEntry) (name : Name) (multi : Bool)
    (filter : ProcEntry → Name → Bool) (killed : List Int) : Option (List Int) :=
  if procfp then some (kill_process procs name multi filter killed) else none

/-! ## Validation -/

/-- The first loop of `validate` (isolated package): the characters of `proc`
up to the first colon. -/
def validate_isolated_proc : Name → Bool
  | [] => true
  | c :: rest =>
    if c.isAlphanum || c == '_' || c == '.' then validate_isolated_proc rest
    else if c == ':' then true
    else false

/-- The second loop of `validate`, over `pkg`; the argument `pkg_valid` is the
value of the variable when the loop reaches this position. -/
def validate_pkg : Name → Bool → Bool
  | [], pkg_valid => pkg_valid
  | c :: rest, pkg_valid =>
    if c.isAlphanum || c == '_' then validate_pkg rest pkg_valid
    else if c == '.' then validate_pkg rest true
    else false

/-- The third loop of `validate`, over `proc`. -/
def validate_proc : Name → Bool
  | [] => true
  | c :: rest =>
    if c.isAlphanum || c == '_' || c == ':' || c == '.' then validate_proc rest
    else false

/-- The function `validate`. -/
def validate (cfg : Config) (pkg proc : Name) : Bool :=
  if str_eql pkg cfg.ISOLATED_MAGIC then
    true && validate_isolated_proc proc
  else
    validate_pkg pkg false && validate_proc proc

/-! ## Persistent store -/

/-- Modelled from the spec: the function `db_exec` of `db.hpp`, which is not
among the sources. The text of the statement is recorded; when the statement
succeeds the table is changed by `effect`, when it fails the table is left as
it was. The result says whether an error was returned. -/
def db_exec (ok : Bool) (sql : Name) (effect : List HideEntry → List HideEntry)
    (db : Db) : Bool × Db :=
  if ok then (false, { db with hidelist := effect db.hidelist, log := db.log ++ [sql] })
  else (true, { db with log := db.log ++ [sql] })

/-- Text of the INSERT statement that `add_list` builds with `snprintf` into
`char sql[4096]`. -/
def sql_insert (pkg proc : Name) : Name :=
  ("INSERT INTO hidelist (package_name, process) VALUES('".toList ++ pkg ++
    "', '".toList ++ proc ++ "')".toList).take 4095

/-- Text of the DELETE statement of `rm_list` for an empty `proc`. -/
def sql_delete_pkg (pkg : Name) : Name :=
  ("DELETE FROM hidelist WHERE package_name='".toList ++ pkg ++ "'".toList).take 4095

/-- Text of the DELETE statement of `rm_list` for a non-empty `proc`. -/
def sql_delete_pair (pkg proc : Name) : Name :=
  ("DELETE FROM hidelist WHERE package_name='".toList ++ pkg ++
    "' AND process='".toList ++ proc ++ "'".toList).take 4095

/-- Text of the REPLACE statement of `update_hide_config`. -/
def sql_replace_config (key : Name) (v : Bool) : Name :=
  "REPLACE INTO settings (key,value) VALUES('".toList ++ key ++ "',".toList ++
    (if v then "1" else "0").toList ++ ")".toList

/-- The function `update_hide_config`. -/
def update_hide_config (cfg : Config) (env : Env) (s : State) : State :=
  if env.config_ok then
    { s with db := { s.db with
        hide_config := s.hide_state,
        log := s.db.log ++ [sql_replace_config cfg.HIDE_CONFIG_KEY s.hide_state] } }
  else
    { s with db := { s.db with
        log := s.db.log ++ [sql_replace_config cfg.HIDE_CONFIG_KEY s.hide_state] } }

/-! ## Hide list commands -/

/-- The function `add_hide_set`. The result is `none` when the call does not
return: with the injection layer active it scans `/proc` through `procfp`,
which is null until `launch_magiskhide` has opened it. -/
def add_hide_set (cfg : Config) (env : Env) (pkg proc : Name) (s : State) : Option State :=
  let s1 := { s with hide_set := set_emplace (pkg, proc) s.hide_set }
  if !cfg.zygisk_enabled then some s1
  else if pkg = cfg.ISOLATED_MAGIC then
    (kill_process_procfp s1.procfp env.procs proc true (proc_name_match str_starts)
      s1.killed).map (fun k => { s1 with killed := k })
  else
    (kill_process_procfp s1.procfp env.procs proc false (proc_name_match str_eql)
      s1.killed).map (fun k => { s1 with killed := k })

/-- The static function `add_list(const char *pkg, const char *proc)`; `none`
when the call does not return. -/
def add_list (cfg : Config) (env : Env) (pkg proc0 : Name) (s : State) :
    Option (Code × State) :=
  let proc := if proc0 = [] then pkg else proc0
  if !validate cfg pkg proc then some (Code.HIDE_INVALID_PKG, s)
  else if s.hide_set.any (fun hide => hide.1 == pkg && hide.2 == proc) then
    some (Code.HIDE_ITEM_EXIST, s)
  else
    let r := db_exec env.db_ok (sql_insert pkg proc) (fun rows => rows ++ [(pkg, proc)]) s.db
    if r.1 then some (Code.DAEMON_ERROR, { s with db := r.2 })
    else
      (add_hide_set cfg env pkg proc { s with db := r.2 }).map
        (fun t => (Code.DAEMON_SUCCESS, t))

/-- The test that the loop of `rm_list` applies to an entry of `hide_set`. -/
def rm_match (pkg proc : Name) (it : HideEntry) : Bool :=
  it.1 == pkg && (proc.isEmpty || it.2 == proc)

/-- The loop of `rm_list` over `hide_set`: the entries that stay, and the final
value of the variable `remove`. -/
def rm_loop (pkg proc : Name) : List HideEntry → Bool → List HideEntry × Bool
  | [], remove => ([], remove)
  | it :: rest, remove =>
    if rm_match pkg proc it then rm_loop pkg proc rest true
    else
      let r := rm_loop pkg proc rest remove
      (it :: r.1, r.2)

/-- The static function `rm_list(const char *pkg, const char *proc)`. -/
def rm_list (env : Env) (pkg proc : Name) (s : State) : Code × State :=
  let r := rm_loop pkg proc s.hide_set false
  let s1 := { s with hide_set := r.1 }
  if !r.2 then (Code.HIDE_ITEM_NOT_EXIST, s1)
  else
    let d :=
      if proc = [] then
        db_exec env.db_ok (sql_delete_pkg pkg) (fun rows => rows.filter (fun row => row.1 ≠ pkg)) s1.db
      else
        db_exec env.db_ok (sql_delete_pair pkg proc)
          (fun rows => rows.filter (fun row => ¬ (row.1 = pkg ∧ row.2 = proc))) s1.db
    (Code.DAEMON_SUCCESS, { s1 with db := d.2 })

/-- The text that `ls_list` writes after the status word: one record
`pkg|process` per entry of `hide_set`, each with the length sent before it. -/
def ls_list (s : State) : List (Nat × Name) :=
  s.hide_set.map (fun hide => (hide.1.length + hide.2.length + 1, hide.1 ++ '|' :: hide.2))

/-! ## Uid index -/

/-- The inner loop of `update_uid_map` over `users`: the `st_uid` of the first
path `APP_DATA_DIR/user_id/pkg` on which `stat` succeeds. -/
def stat_users (cfg : Config) (env : Env) (pkg : Name) : List Name → Option Nat
  | [] => none
  | user_id :: rest =>
    match env.stat (cfg.APP_DATA_DIR ++ '/' :: user_id ++ '/' :: pkg) with
    | some st_uid => some st_uid
    | none => stat_users cfg env pkg rest

/-- The loop of `update_uid_map` over `hide_set`; `prev_pkg` and `st_uid` are the
values of the variables `prev_pkg` and `st.st_uid` on entry to the iteration. -/
def uid_map_loop (cfg : Config) (env : Env) (users : List Name) :
    List HideEntry → Name → Nat → List (Int × List Name) → List (Int × List Name)
  | [], _, _, m => m
  | hide :: rest, prev_pkg, st_uid, m =>
    if hide.1 = cfg.ISOLATED_MAGIC then
      uid_map_loop cfg env users rest prev_pkg st_uid (map_append m (-1) hide.2)
    else if prev_pkg = hide.1 then
      uid_map_loop cfg env users rest prev_pkg st_uid
        (map_append m (to_app_id (Int.ofNat st_uid)) hide.2)
    else
      match stat_users cfg env hide.1 users with
      | some uid =>
        uid_map_loop cfg env users rest hide.1 uid
          (map_append m (to_app_id (Int.ofNat uid)) hide.2)
      | none => uid_map_loop cfg env users rest prev_pkg st_uid m

/-- The function `update_uid_map`. -/
def update_uid_map (cfg : Config) (env : Env) (s : State) : State :=
  if !cfg.zygisk_enabled then s
  else
    match env.users with
    | some users =>
      { s with uid_proc_map := uid_map_loop cfg env users s.hide_set [] env.st_uid0 [] }
    | none => { s with uid_proc_map := [] }

/-- The function `add_list(int client)`, on the two strings read from the client. -/
def add_list_client (cfg : Config) (env : Env) (pkg proc : Name) (s : State) :
    Option (Code × State) :=
  (add_list cfg env pkg proc s).map
    (fun r => if r.1 = Code.DAEMON_SUCCESS then (r.1, update_uid_map cfg env r.2) else r)

/-- The function `rm_list(int client)`, on the two strings read from the client. -/
def rm_list_client (cfg : Config) (env : Env) (pkg proc : Name) (s : State) : Code × State :=
  let r := rm_list env pkg proc s
  if r.1 = Code.DAEMON_SUCCESS then (r.1, update_uid_map cfg env r.2) else r

/-! ## Enable and disable -/

/-- The function `str_ends_safe`. -/
def str_ends_safe (s ss : Name) : Bool :=
  if s == "webview_zygote".toList then false else str_ends s ss

/-- The macro `SNET_PROC`. -/
def SNET_PROC : Name := "com.google.android.gms.unstable".toList

/-- The macro `GMS_PKG`. -/
def GMS_PKG : Name := "com.google.android.gms".toList

/-- The rows that `SELECT * FROM hidelist` passes to its callback. -/
def select_rows (env : Env) (db : Db) : List HideEntry :=
  match env.select_fail with
  | none => db.hidelist
  | some n => db.hidelist.take n

/-- The callback of `SELECT * FROM hidelist` in `init_list`, run on each row in
turn: `add_hide_set` of the row. -/
def load_rows (cfg : Config) (env : Env) : List HideEntry → State → Option State
  | [], s => some s
  | row :: rest, s => (add_hide_set cfg env row.1 row.2 s).bind (load_rows cfg env rest)

/-- The block of `init_list` under `SDK_INT >= 29 && zygisk_enabled`: the three
scans that kill the blastula pool and the app zygotes. -/
def kill_pools (cfg : Config) (env : Env) (s : State) : Option State :=
  if 29 ≤ cfg.SDK_INT ∧ cfg.zygisk_enabled = true then
    (kill_process_procfp s.procfp env.procs "usap32".toList true (proc_name_match str_eql)
      s.killed).bind (fun k1 =>
    (kill_process_procfp s.procfp env.procs "usap64".toList true (proc_name_match str_eql)
      k1).bind (fun k2 =>
    (kill_process_procfp s.procfp env.procs "_zygote".toList true
      (proc_name_match str_ends_safe) k2).map (fun k3 => { s with killed := k3 })))
  else some s

/-- The end of `init_list`: the default entries. -/
def seed_defaults (cfg : Config) (env : Env) (s : State) : Option State :=
  (add_hide_set cfg env GMS_PKG SNET_PROC s).bind (fun s4 =>
    if cfg.MAGISKTMP ≠ "/sbin".toList then add_hide_set cfg env GMS_PKG GMS_PKG s4
    else some s4)

/-- The function `init_list`; `none` when the call does not return. -/
def init_list (cfg : Config) (env : Env) (s : State) : Option (Bool × State) :=
  let s1 := { s with db := { s.db with log := s.db.log ++ ["SELECT * FROM hidelist".toList] } }
  (load_rows cfg env (select_rows env s.db) s1).bind (fun s2 =>
    if env.select_fail.isSome then some (false, s2)
    else
      ((kill_pools cfg env s2).bind (seed_defaults cfg env)).map (fun s5 => (true, s5)))

/-- The end of `launch_magiskhide`, once the monitor thread has started: the
flag is set, the watch is opened when the injection layer is active, the flag
is persisted and the index is rebuilt. -/
def launch_finish (cfg : Config) (env : Env) (t : State) : State :=
  let s2 := { t with monitor := true, hide_state := true }
  let s3 := if cfg.zygisk_enabled then { s2 with inotify_fd := env.inotify_init } else s2
  let s4 := update_hide_config cfg env s3
  update_uid_map cfg env s4

/-- The function `launch_magiskhide`; `none` when the call does not return. The
calls `hide_sensitive_props` and `hide_late_sensitive_props` touch nothing that
`State` holds, so the argument `late_props` has no effect here. -/
def launch_magiskhide (cfg : Config) (env : Env) (late_props : Bool) (s : State) :
    Option (Code × State) :=
  let _ := late_props
  if s.hide_state then some (Code.HIDE_IS_ENABLED, s)
  else if !env.ns_ok then some (Code.HIDE_NO_NS, s)
  else if !s.procfp && !env.opendir_ok then some (Code.DAEMON_ERROR, s)
  else
    (init_list cfg env { s with procfp := true }).map (fun r =>
      if !r.1 then (Code.DAEMON_ERROR, r.2)
      else if !env.thread_ok then (Code.DAEMON_ERROR, r.2)
      else (Code.DAEMON_SUCCESS, launch_finish cfg env r.2))

/-- The function `stop_magiskhide`. -/
def stop_magiskhide (cfg : Config) (env : Env) (s : State) : Code × State :=
  let s1 :=
    if s.hide_state then
      { s with uid_proc_map := [], hide_set := [], monitor := false, inotify_fd := -1 }
    else s
  let s2 := { s1 with hide_state := false }
  (Code.DAEMON_SUCCESS, update_hide_config cfg env s2)

/-! ## Query -/

/-- The first loop of `is_hide_target`, over the names stored for isolated
processes. -/
def isolated_match (process : Name) (max_len : Int) : List Name → Bool
  | [] => false
  | s :: rest =>
    if to_size_t max_len < s.length ∧ to_size_t max_len < process.length ∧
        str_starts s process = true then true
    else if str_starts process s then true
    else isolated_match process max_len rest

/-- The second loop of `is_hide_target`, over the names stored for an app id. -/
def app_match (process : Name) (max_len : Int) : List Name → Bool
  | [] => false
  | s :: rest =>
    if to_size_t max_len < s.length ∧ to_size_t max_len < process.length ∧
        str_starts s process = true then true
    else if s == process then true
    else app_match process max_len rest

/-- The function `is_hide_target`. -/
def is_hide_target (st : State) (uid : Int) (process : Name) (max_len : Int) : Bool :=
  let app_id := to_app_id uid
  if 90000 ≤ app_id then
    match map_find st.uid_proc_map (-1) with
    | none => false
    | some names => isolated_match process max_len names
  else
    match map_find st.uid_proc_map app_id with
    | none => false
    | some names => app_match process max_len names

/-! ## Command sequences -/

/-- The four operations on the hide list and its controller. -/
inductive Op where
  | add (pkg proc : Name)
  | remove (pkg proc : Name)
  | enable (late_props : Bool)
  | disable

/-- One operation, run in the environment it meets; `none` when the call does
not return. -/
def step (cfg : Config) (s : State) (c : Op × Env) : Option (Code × State) :=
  match c.1 with
  | Op.add pkg proc => add_list_client cfg c.2 pkg proc s
  | Op.remove pkg proc => some (rm_list_client cfg c.2 pkg proc s)
  | Op.enable late_props => launch_magiskhide cfg c.2 late_props s
  | Op.disable => some (stop_magiskhide cfg c.2 s)

/-- The state after a sequence of operations; `none` when one of them does not
return. -/
def run (cfg : Config) (s : State) : List (Op × Env) → Option State
  | [] => some s
  | c :: rest => (step cfg s c).bind (fun r => run cfg r.2 rest)

/-! ## Sample configuration -/

/-- A configuration with the values the headers give: injection active, Android 11. -/
def cfg0 : Config :=
  { ISOLATED_MAGIC := "isolated".toList, APP_DATA_DIR := "/data/user_de".toList,
    zygisk_enabled := true, SDK_INT := 30, MAGISKTMP := "/sbin".toList,
    HIDE_CONFIG_KEY := "magiskhide".toList }

/-- An environment in which every call succeeds: one user directory, every
package directory owned by uid 10010, no process running. -/
def env0 : Env :=
  { procs := [], users := some ["0".toList], stat := fun _ => some 10010, st_uid0 := 0,
    db_ok := true, select_fail := none, config_ok := true, ns_ok := true,
    opendir_ok := true, thread_ok := true, inotify_init := 3 }

/-- An empty store. -/
def db0 : Db := { hidelist := [], hide_config := false, log := [] }

/-! ## Restricted command sequences -/

/-- Condition on one operation met in state `s`: an add is issued only while
`hide_state` is true, and an enable attempt that gets as far as `init_list`
neither fails there nor at the start of the monitor thread. -/
def guard (s : State) (c : Op × Env) : Bool :=
  match c.1 with
  | Op.add _ _ => s.hide_state
  | Op.enable _ =>
    s.hide_state || !c.2.ns_ok || (!s.procfp && !c.2.opendir_ok) ||
      (c.2.select_fail.isNone && c.2.thread_ok)
  | _ => true

/-- The condition `guard` holds at every operation of the sequence, as far as
the sequence runs. -/
def admissible (cfg : Config) (s : State) : List (Op × Env) → Bool
  | [] => true
  | c :: rest =>
    guard s c &&
      (match step cfg s c with
       | some r => admissible cfg r.2 rest
       | none => true)

/-- The property that a state with `hide_state` false carries no entries. -/
def disabled_empty (s : State) : Prop :=
  s.hide_state = false → s.hide_set = [] ∧ s.uid_proc_map = []

/-- A store that holds one row, left by an earlier session. -/
def db1 : Db :=
  { hidelist := [("a.b".toList, "a.b".toList)], hide_config := false, log := [] }

/-! ## The naming grammar as the specification words it -/

/-- The package grammar in the words of the specification: non-empty segments
of alphanumeric or underscore characters, separated by single dots, with at
least one dot. `seen_dot` says whether a dot has been read, `in_segment`
whether the segment being read has a character. -/
def spec_pkg_grammar_from (seen_dot in_segment : Bool) : Name → Bool
  | [] => seen_dot && in_segment
  | c :: rest =>
    if c.isAlphanum || c == '_' then spec_pkg_grammar_from seen_dot true rest
    else if c == '.' then in_segment && spec_pkg_grammar_from true false rest
    else false

/-- The package grammar of the specification, from the start of the name. -/
def spec_pkg_grammar (pkg : Name) : Bool := spec_pkg_grammar_from false false pkg

/-- The quote character that delimits a value in the SQL text. -/
def quote : Char := Char.ofNat 39

/-- The state after enabling and then adding the isolated process name
`proc_abc` and the process `abcd` of package `a.b`. -/
def st_sample : State :=
  (run cfg0 (State.initial db0)
    [(Op.enable false, env0), (Op.add "isolated".toList "proc_abc".toList, env0),
     (Op.add "a.b".toList "abcd".toList, env0)]).getD (State.initial db0)

/-- The state after the first enable over an empty store. -/
def st_on : State :=
  (run cfg0 (State.initial db0) [(Op.enable false, env0)]).getD (State.initial db0)

/-- The property that `t` differs from `s` at most in `hide_set` and by signals
added to the kill list. -/
def same_but_set (s t : State) : Prop :=
  t.hide_state = s.hide_state ∧ t.uid_proc_map = s.uid_proc_map ∧ t.db = s.db ∧
  t.procfp = s.procfp ∧ t.monitor = s.monitor ∧ t.inotify_fd = s.inotify_fd ∧
  ∃ more, t.killed = s.killed ++ more

/-- The property that `procfp` is open whenever `hide_state` is true. -/
def enabled_open (s : State) : Prop :=
  s.hide_state = true → s.procfp = true

/-! ## The rebuild as the specification words it -/

/-- The rebuild of the index in the words of the specification, without the
same-owner shortcut: an entry of the isolated package is appended under the
key -1; any other entry is appended under the app id of the uid of the first
user directory in which `stat` finds its package; an entry whose package is
found under no user adds nothing. -/
def rebuild_no_shortcut (cfg : Config) (env : Env) (users : List Name) :
    List HideEntry → List (Int × List Name) → List (Int × List Name)
  | [], m => m
  | hide :: rest, m =>
    if hide.1 = cfg.ISOLATED_MAGIC then
      rebuild_no_shortcut cfg env users rest (map_append m (-1) hide.2)
    else
      match stat_users cfg env hide.1 users with
      | some uid =>
        rebuild_no_shortcut cfg env users rest
          (map_append m (to_app_id (Int.ofNat uid)) hide.2)
      | none => rebuild_no_shortcut cfg env users rest m

/-! ## Further sample values -/

/-- The scanner example: three processes with the command lines `app.target`,
`other` and `app.target2`. -/
def procs3 : List ProcEntry :=
  [{ pid := 101, buf := some "app.target".toList },
   { pid := 102, buf := some "other".toList },
   { pid := 103, buf := some "app.target2".toList }]

/-- Two user directories, `0` and `10`; the package `com.a` is owned by uid 10010
under user 0 and by uid 10110 under user 10; nothing else exists. -/
def env_two_users : Env :=
  { env0 with
    users := some ["0".toList, "10".toList],
    stat := fun path =>
      if path = "/data/user_de/0/com.a".toList then some 10010
      else if path = "/data/user_de/10/com.a".toList then some 10110
      else none }

/-- An environment in which no package directory exists and the uninitialised
`st.st_uid` holds 4242. -/
def env_no_dirs : Env :=
  { env0 with stat := fun _ => none, st_uid0 := 4242 }

/-- A store whose only row fails `validate`: the package `badname` has no dot. -/
def db_bad : Db :=
  { hidelist := [("badname".toList, "x".toList)], hide_config := true, log := [] }

/-- A store whose only row has an empty package name. -/
def db_empty_pkg : Db :=
  { hidelist := [([], "p".toList)], hide_config := true, log := [] }

/-! ## Entries and their origin -/

/-- The entries that `init_list` adds by default under a configuration. -/
def seeded (cfg : Config) (e : HideEntry) : Prop :=
  e = (GMS_PKG, SNET_PROC) ∨ (cfg.MAGISKTMP ≠ "/sbin".toList ∧ e = (GMS_PKG, GMS_PKG))

/-- The property that every entry of `hide_set` is a row of the store or one of
the default entries. -/
def backed (cfg : Config) (s : State) : Prop :=
  ∀ e ∈ s.hide_set, e ∈ s.db.hidelist ∨ seeded cfg e

/-- The set after `emplace` of each row in turn. -/
def emplace_rows (rows : List HideEntry) (set : List HideEntry) : List HideEntry :=
  rows.foldl (fun acc row => set_emplace row acc) set

/-- The property that a list of entries is in the strict order of the set. -/
def set_sorted (l : List HideEntry) : Prop :=
  l.Pairwise (fun a b => pair_lt a b = true)

/-- The test of the zygote scan on one entry of `/proc`: a positive pid and a
command line that ends in `_zygote` and is not `webview_zygote`. -/
def zygote_target (dp : ProcEntry) : Bool :=
  decide (0 < dp.pid) &&
    (match dp.buf with
     | some buf => buf != "webview_zygote".toList && "_zygote".toList.isSuffixOf buf
     | none => false)

/-- A process table with an app zygote, the webview zygote and a shell. -/
def procs_zygote : List ProcEntry :=
  [{ pid := 201, buf := some "com.android.chrome_zygote".toList },
   { pid := 202, buf := some "webview_zygote".toList },
   { pid := 203, buf := some "sh".toList }]

/-- All the names that an index stores, key after key. -/
def index_names : List (Int × List Name) → List Name
  | [] => []
  | p :: rest => p.2 ++ index_names rest

/-- The property that every list stored in an index is non-empty and made of
processes of entries of `registry`, under the key -1 exactly for the entries of
the isolated package. -/
def index_sound (cfg : Config) (registry : List HideEntry) (m : List (Int × List Name)) : Prop :=
  ∀ p ∈ m, p.2 ≠ [] ∧
    ∀ n ∈ p.2, ∃ e ∈ registry, e.2 = n ∧ (p.1 = -1 ↔ e.1 = cfg.ISOLATED_MAGIC)

/-- The sample configuration with the injection layer inactive. -/
def cfg_off : Config := { cfg0 with zygisk_enabled := false }


/-! ## Scanner -/

theorem crawl_kill_multi (name : Name) (filter : ProcEntry → Name → Bool)
    (procs : List ProcEntry) :
    ∀ killed : List Int, kill_process procs name true filter killed =
      killed ++ (procs.filter (fun dp => decide (0 < dp.pid) && filter dp name)).map
        (fun dp => dp.pid) := by
  induction procs with
  | nil => intro killed; simp [kill_process, crawl_procfs]
  | cons dp rest ih =>
    intro killed
    have ih2 := ih
    unfold kill_process at ih2 ⊢
    unfold crawl_procfs
    by_cases hp : 0 < dp.pid
    · by_cases hf : filter dp name = true
      · simp only [hp, hf, if_true]
        rw [ih2]
        simp [hp, hf]
      · simp only [hp, hf, if_true]
        rw [ih2]
        simp [hp, hf]
    · simp only [hp, if_false]
      rw [ih2]
      simp [hp]

theorem crawl_kill_single (name : Name) (filter : ProcEntry → Name → Bool)
    (procs : List ProcEntry) :
    ∀ killed : List Int, kill_process procs name false filter killed =
      killed ++ ((procs.find? (fun dp => decide (0 < dp.pid) && filter dp name)).map
        (fun dp => dp.pid)).toList := by
  induction procs with
  | nil => intro killed; simp [kill_process, crawl_procfs]
  | cons dp rest ih =>
    intro killed
    have ih2 := ih
    unfold kill_process at ih2 ⊢
    unfold crawl_procfs
    by_cases hp : 0 < dp.pid
    · by_cases hf : filter dp name = true
      · simp [hp, hf]
      · simp only [hp, hf, if_true]
        rw [ih2]
        simp [hp, hf]
    · simp only [hp, if_false]
      rw [ih2]
      simp [hp]

/-- C12: for every process table and name, `kill_process` with `multi` false
sends `SIGKILL` to the first entry with a positive pid on which the filter
succeeds, and to no entry when there is none; with `multi` true it sends it to
every entry with a positive pid on which the filter succeeds, in table order,
and to no other. On the command lines `app.target`, `other`, `app.target2`
the default exact filter without `multi` kills the first entry only, and the
prefix filter with `multi` kills the first and the third. -/
theorem kill_process_targets (procs : List ProcEntry) (name : Name)
    (filter : ProcEntry → Name → Bool) (killed : List Int) :
    kill_process procs name false filter killed =
      killed ++ ((procs.find? (fun dp => decide (0 < dp.pid) && filter dp name)).map
        (fun dp => dp.pid)).toList ∧
    kill_process procs name true filter killed =
      killed ++ (procs.filter (fun dp => decide (0 < dp.pid) && filter dp name)).map
        (fun dp => dp.pid) ∧
    kill_process procs3 "app.target".toList false (proc_name_match str_eql) [] = [101] ∧
    kill_process procs3 "app.target".toList true (proc_name_match str_starts) [] = [101, 103] :=
  ⟨crawl_kill_single name filter procs killed, crawl_kill_multi name filter procs killed,
   by decide, by decide⟩


/-! ## The scan through the static handle -/

theorem kill_process_extends (procs : List ProcEntry) (name : Name) (multi : Bool)
    (filter : ProcEntry → Name → Bool) (killed : List Int) :
    ∃ more, kill_process procs name multi filter killed = killed ++ more := by
  cases multi with
  | false => exact ⟨_, crawl_kill_single name filter procs killed⟩
  | true => exact ⟨_, crawl_kill_multi name filter procs killed⟩

/-- With an open handle the scan runs; with a null handle the call does not return. -/
theorem kill_process_procfp_eq (procfp : Bool) (procs : List ProcEntry) (name : Name)
    (multi : Bool) (filter : ProcEntry → Name → Bool) (killed k : List Int) :
    kill_process_procfp procfp procs name multi filter killed = some k ↔
      procfp = true ∧ k = kill_process procs name multi filter killed := by
  unfold kill_process_procfp
  cases procfp with
  | false => simp
  | true =>
    simp only [if_true, Option.some.injEq, true_and]
    exact ⟨fun h => h.symm, fun h => h.symm⟩

theorem same_but_set_refl (s : State) : same_but_set s s :=
  ⟨rfl, rfl, rfl, rfl, rfl, rfl, [], by simp⟩

theorem same_but_set_trans {s t u : State} (h1 : same_but_set s t) (h2 : same_but_set t u) :
    same_but_set s u := by
  obtain ⟨a1, a2, a3, a4, a5, a6, m1, a7⟩ := h1
  obtain ⟨b1, b2, b3, b4, b5, b6, m2, b7⟩ := h2
  exact ⟨b1.trans a1, b2.trans a2, b3.trans a3, b4.trans a4, b5.trans a5, b6.trans a6,
    m1 ++ m2, by rw [b7, a7, List.append_assoc]⟩

/-! ## What `add_hide_set` does -/

/-- When `add_hide_set` returns, the pair has been put into `hide_set` and
nothing else has changed but the kill list, which has grown; with the
injection layer inactive the kill list is as before. -/
theorem add_hide_set_spec (cfg : Config) (env : Env) (pkg proc : Name) (s t : State)
    (h : add_hide_set cfg env pkg proc s = some t) :
    t.hide_set = set_emplace (pkg, proc) s.hide_set ∧ same_but_set s t ∧
    (cfg.zygisk_enabled = false → t.killed = s.killed) ∧
    (cfg.zygisk_enabled = false ∨ s.procfp = true) := by
  unfold add_hide_set at h
  simp only [] at h
  cases hz : cfg.zygisk_enabled with
  | false =>
    simp only [hz, Bool.not_false, if_true, Option.some.injEq] at h
    subst h
    exact ⟨rfl, ⟨rfl, rfl, rfl, rfl, rfl, rfl, [], by simp⟩, fun _ => rfl, Or.inl rfl⟩
  | true =>
    simp only [hz, Bool.not_true, Bool.false_eq_true, if_false] at h
    by_cases hp : pkg = cfg.ISOLATED_MAGIC
    · rw [if_pos hp, Option.map_eq_some'] at h
      obtain ⟨k, hk, rfl⟩ := h
      obtain ⟨hpf, hk2⟩ := (kill_process_procfp_eq _ _ _ _ _ _ _).1 hk
      obtain ⟨more, hm⟩ := kill_process_extends env.procs proc true
        (proc_name_match str_starts) s.killed
      exact ⟨rfl, ⟨rfl, rfl, rfl, rfl, rfl, rfl, more, by rw [hk2]; exact hm⟩,
        (fun hf => by cases hf), Or.inr hpf⟩
    · rw [if_neg hp, Option.map_eq_some'] at h
      obtain ⟨k, hk, rfl⟩ := h
      obtain ⟨hpf, hk2⟩ := (kill_process_procfp_eq _ _ _ _ _ _ _).1 hk
      obtain ⟨more, hm⟩ := kill_process_extends env.procs proc false
        (proc_name_match str_eql) s.killed
      exact ⟨rfl, ⟨rfl, rfl, rfl, rfl, rfl, rfl, more, by rw [hk2]; exact hm⟩,
        (fun hf => by cases hf), Or.inr hpf⟩

/-- The call of `add_hide_set` returns when the injection layer is inactive or
`procfp` is open. -/
theorem add_hide_set_returns (cfg : Config) (env : Env) (pkg proc : Name) (s : State)
    (h : cfg.zygisk_enabled = false ∨ s.procfp = true) :
    ∃ t, add_hide_set cfg env pkg proc s = some t := by
  unfold add_hide_set
  simp only []
  cases hz : cfg.zygisk_enabled with
  | false => exact ⟨_, rfl⟩
  | true =>
    have hpf : s.procfp = true := by
      rcases h with h | h
      · rw [hz] at h; cases h
      · exact h
    simp only [Bool.not_true, Bool.false_eq_true, if_false, kill_process_procfp, hpf, if_true,
      Option.map_some']
    split
    · exact ⟨_, rfl⟩
    · exact ⟨_, rfl⟩

/-- With the injection layer active and a null `procfp` the call of
`add_hide_set` does not return. -/
theorem add_hide_set_faults (cfg : Config) (env : Env) (pkg proc : Name) (s : State)
    (hz : cfg.zygisk_enabled = true) (hp : s.procfp = false) :
    add_hide_set cfg env pkg proc s = none := by
  cases h : add_hide_set cfg env pkg proc s with
  | none => rfl
  | some t =>
    rcases (add_hide_set_spec cfg env pkg proc s t h).2.2.2 with h1 | h1
    · rw [hz] at h1; cases h1
    · rw [hp] at h1; cases h1

/-! ## The four ways through `add_list` -/

theorem any_pair_iff (pkg proc : Name) (l : List HideEntry) :
    (l.any (fun hide => hide.1 == pkg && hide.2 == proc)) = true ↔ (pkg, proc) ∈ l := by
  induction l with
  | nil => simp
  | cons y ys ih =>
    obtain ⟨y1, y2⟩ := y
    simp only [List.any_cons, Bool.or_eq_true, ih, List.mem_cons, Bool.and_eq_true,
      beq_iff_eq, Prod.mk.injEq]
    constructor
    · rintro (⟨h1, h2⟩ | h)
      · left; exact ⟨h1.symm, h2.symm⟩
      · right; exact h
    · rintro (⟨h1, h2⟩ | h)
      · left; exact ⟨h1.symm, h2.symm⟩
      · right; exact h

/-- The result of `add_list` when `validate` rejects the pair. -/
theorem add_list_invalid (cfg : Config) (env : Env) (pkg proc : Name) (s : State)
    (hv : validate cfg pkg (if proc = [] then pkg else proc) = false) :
    add_list cfg env pkg proc s = some (Code.HIDE_INVALID_PKG, s) := by
  unfold add_list
  simp only []
  revert hv
  generalize (if proc = [] then pkg else proc) = p
  intro hv
  simp [hv]

/-- The result of `add_list` when the pair is in `hide_set`. -/
theorem add_list_exist (cfg : Config) (env : Env) (pkg proc : Name) (s : State)
    (hv : validate cfg pkg (if proc = [] then pkg else proc) = true)
    (hn : (pkg, (if proc = [] then pkg else proc)) ∈ s.hide_set) :
    add_list cfg env pkg proc s = some (Code.HIDE_ITEM_EXIST, s) := by
  unfold add_list
  simp only []
  revert hv hn
  generalize (if proc = [] then pkg else proc) = p
  intro hv hn
  have ha : (s.hide_set.any (fun hide => hide.1 == pkg && hide.2 == p)) = true :=
    (any_pair_iff pkg p s.hide_set).2 hn
  simp [hv, ha]

/-- The result of `add_list` when the pair is valid and new and the INSERT fails. -/
theorem add_list_db_fail (cfg : Config) (env : Env) (pkg proc : Name) (s : State)
    (hv : validate cfg pkg (if proc = [] then pkg else proc) = true)
    (hn : (pkg, (if proc = [] then pkg else proc)) ∉ s.hide_set)
    (hdb : env.db_ok = false) :
    add_list cfg env pkg proc s =
      some (Code.DAEMON_ERROR, { s with db := { s.db with
        log := s.db.log ++ [sql_insert pkg (if proc = [] then pkg else proc)] } }) := by
  unfold add_list
  simp only []
  revert hv hn
  generalize (if proc = [] then pkg else proc) = p
  intro hv hn
  have ha : (s.hide_set.any (fun hide => hide.1 == pkg && hide.2 == p)) = false := by
    rw [← Bool.not_eq_true, any_pair_iff]
    exact hn
  simp [hv, ha, db_exec, hdb]

/-- The result of `add_list` when validation passes, the pair is new and the
INSERT succeeds: the row is in the store and `add_hide_set` decides the rest. -/
theorem add_list_success (cfg : Config) (env : Env) (pkg proc : Name) (s : State)
    (hv : validate cfg pkg (if proc = [] then pkg else proc) = true)
    (hn : (pkg, (if proc = [] then pkg else proc)) ∉ s.hide_set)
    (hdb : env.db_ok = true) :
    add_list cfg env pkg proc s =
      (add_hide_set cfg env pkg (if proc = [] then pkg else proc)
          { s with db := { s.db with
              hidelist := s.db.hidelist ++ [(pkg, (if proc = [] then pkg else proc))],
              log := s.db.log ++ [sql_insert pkg (if proc = [] then pkg else proc)] } }).map
        (fun t => (Code.DAEMON_SUCCESS, t)) := by
  unfold add_list
  simp only []
  revert hv hn
  generalize (if proc = [] then pkg else proc) = p
  intro hv hn
  have ha : (s.hide_set.any (fun hide => hide.1 == pkg && hide.2 == p)) = false := by
    rw [← Bool.not_eq_true, any_pair_iff]
    exact hn
  simp [hv, ha, db_exec, hdb]

/-- What a returning `add_list` leaves: either nothing but the log of the store
has changed and the code is not `DAEMON_SUCCESS`, or the code is
`DAEMON_SUCCESS`, the pair is in `hide_set` and its row in the store. -/
theorem add_list_sets (cfg : Config) (env : Env) (pkg proc : Name) (s : State)
    (r : Code × State) (h : add_list cfg env pkg proc s = some r) :
    r.2.hide_state = s.hide_state ∧ r.2.uid_proc_map = s.uid_proc_map ∧
    r.2.procfp = s.procfp ∧
    ((r.1 ≠ Code.DAEMON_SUCCESS ∧ r.2.hide_set = s.hide_set ∧
        r.2.db.hidelist = s.db.hidelist ∧ r.2.killed = s.killed) ∨
      (r.1 = Code.DAEMON_SUCCESS ∧
        validate cfg pkg (if proc = [] then pkg else proc) = true ∧
        (pkg, (if proc = [] then pkg else proc)) ∉ s.hide_set ∧ env.db_ok = true ∧
        r.2.hide_set = set_emplace (pkg, (if proc = [] then pkg else proc)) s.hide_set ∧
        r.2.db.hidelist = s.db.hidelist ++ [(pkg, (if proc = [] then pkg else proc))] ∧
        (cfg.zygisk_enabled = false → r.2.killed = s.killed) ∧
        (cfg.zygisk_enabled = false ∨ s.procfp = true))) := by
  by_cases hv : validate cfg pkg (if proc = [] then pkg else proc) = true
  · by_cases hn : (pkg, (if proc = [] then pkg else proc)) ∈ s.hide_set
    · rw [add_list_exist cfg env pkg proc s hv hn, Option.some.injEq] at h
      subst h
      exact ⟨rfl, rfl, rfl, Or.inl ⟨(fun hc => by cases hc), rfl, rfl, rfl⟩⟩
    · cases hdb : env.db_ok
      · rw [add_list_db_fail cfg env pkg proc s hv hn hdb, Option.some.injEq] at h
        subst h
        exact ⟨rfl, rfl, rfl, Or.inl ⟨(fun hc => by cases hc), rfl, rfl, rfl⟩⟩
      · rw [add_list_success cfg env pkg proc s hv hn hdb, Option.map_eq_some'] at h
        obtain ⟨t, ht, rfl⟩ := h
        obtain ⟨h1, ⟨a1, a2, a3, a4, _, _, _⟩, h3, h4⟩ := add_hide_set_spec _ _ _ _ _ _ ht
        refine ⟨a1, a2, a4, Or.inr ⟨rfl, hv, hn, rfl, h1, ?_, h3, h4⟩⟩
        simp only [a3]
  · have hvf : validate cfg pkg (if proc = [] then pkg else proc) = false := by
      simpa using hv
    rw [add_list_invalid cfg env pkg proc s hvf, Option.some.injEq] at h
    subst h
    exact ⟨rfl, rfl, rfl, Or.inl ⟨(fun hc => by cases hc), rfl, rfl, rfl⟩⟩

/-- The call of `add_list` returns when the injection layer is inactive or
`procfp` is open. -/
theorem add_list_returns (cfg : Config) (env : Env) (pkg proc : Name) (s : State)
    (h : cfg.zygisk_enabled = false ∨ s.procfp = true) :
    ∃ r, add_list cfg env pkg proc s = some r := by
  by_cases hv : validate cfg pkg (if proc = [] then pkg else proc) = true
  · by_cases hn : (pkg, (if proc = [] then pkg else proc)) ∈ s.hide_set
    · exact ⟨_, add_list_exist cfg env pkg proc s hv hn⟩
    · cases hdb : env.db_ok
      · exact ⟨_, add_list_db_fail cfg env pkg proc s hv hn hdb⟩
      · rw [add_list_success cfg env pkg proc s hv hn hdb]
        obtain ⟨t, ht⟩ := add_hide_set_returns cfg env pkg (if proc = [] then pkg else proc)
          { s with db := { s.db with
              hidelist := s.db.hidelist ++ [(pkg, (if proc = [] then pkg else proc))],
              log := s.db.log ++ [sql_insert pkg (if proc = [] then pkg else proc)] } } h
        exact ⟨_, by rw [ht]; rfl⟩
  · exact ⟨_, add_list_invalid cfg env pkg proc s (by simpa using hv)⟩

/-- The command `add_list(int client)` returns what `add_list` returns, with the
index rebuilt after a `DAEMON_SUCCESS`. -/
theorem add_list_client_some (cfg : Config) (env : Env) (pkg proc : Name) (s : State)
    (r : Code × State) :
    add_list_client cfg env pkg proc s = some r ↔
      ∃ r0, add_list cfg env pkg proc s = some r0 ∧
        r = (if r0.1 = Code.DAEMON_SUCCESS then (r0.1, update_uid_map cfg env r0.2) else r0) := by
  unfold add_list_client
  rw [Option.map_eq_some']
  constructor
  · rintro ⟨r0, h1, h2⟩
    exact ⟨r0, h1, h2.symm⟩
  · rintro ⟨r0, h1, h2⟩
    exact ⟨r0, h1, h2.symm⟩

/-! ## The order of the set -/

theorem str_lt_irrefl (a : Name) : str_lt a a = false := by
  induction a with
  | nil => rfl
  | cons c s ih => simp [str_lt, ih]

theorem str_lt_total : ∀ a b : Name, str_lt a b = false → str_lt b a = false → a = b
  | [], [], _, _ => rfl
  | [], _ :: _, h, _ => by simp [str_lt] at h
  | _ :: _, [], _, h => by simp [str_lt] at h
  | a :: s, b :: t, h1, h2 => by
    rcases Nat.lt_trichotomy a.toNat b.toNat with hlt | heq | hgt
    · simp [str_lt, hlt] at h1
    · have hc : a = b := by
        rw [← Char.ofNat_toNat a, ← Char.ofNat_toNat b, heq]
      subst hc
      simp only [str_lt, Nat.lt_irrefl, if_false] at h1 h2
      rw [str_lt_total s t h1 h2]
    · simp [str_lt, hgt] at h2

theorem pair_lt_total (x y : HideEntry) (h1 : pair_lt x y = false) (h2 : pair_lt y x = false) :
    x = y := by
  obtain ⟨x1, x2⟩ := x
  obtain ⟨y1, y2⟩ := y
  simp only [pair_lt, Bool.or_eq_false_iff, Bool.and_eq_false_iff, Bool.not_eq_false] at h1 h2
  obtain ⟨ha, hb⟩ := h1
  obtain ⟨hc, hd⟩ := h2
  have e1 : x1 = y1 := str_lt_total x1 y1 ha hc
  subst e1
  have hb2 : str_lt x2 y2 = false := by
    rcases hb with hb | hb
    · rw [ha] at hb; cases hb
    · exact hb
  have hd2 : str_lt y2 x2 = false := by
    rcases hd with hd | hd
    · rw [ha] at hd; cases hd
    · exact hd
  rw [str_lt_total x2 y2 hb2 hd2]

theorem mem_set_emplace (x e : HideEntry) (l : List HideEntry) :
    e ∈ set_emplace x l ↔ e = x ∨ e ∈ l := by
  induction l with
  | nil => simp [set_emplace]
  | cons y ys ih =>
    unfold set_emplace
    by_cases h1 : pair_lt x y = true
    · simp [h1]
    · by_cases h2 : pair_lt y x = true
      · have h1f : pair_lt x y = false := by simpa using h1
        simp only [h1f, h2, if_true, Bool.false_eq_true, if_false, List.mem_cons, ih]
        tauto
      · have hxy : x = y :=
          pair_lt_total x y (by simpa using h1) (by simpa using h2)
        subst hxy
        simp [h1]

theorem length_set_emplace (x : HideEntry) (l : List HideEntry) (h : x ∉ l) :
    (set_emplace x l).length = l.length + 1 := by
  induction l with
  | nil => simp [set_emplace]
  | cons y ys ih =>
    have hne : x ≠ y := fun e => h (by simp [e])
    have hys : x ∉ ys := fun e => h (by simp [e])
    unfold set_emplace
    by_cases h1 : pair_lt x y = true
    · simp [h1]
    · by_cases h2 : pair_lt y x = true
      · simp [h1, h2, ih hys]
      · exact absurd (pair_lt_total x y (by simpa using h1) (by simpa using h2)) hne


/-! ## The set stays ordered -/

theorem str_lt_trans : ∀ a b c : Name, str_lt a b = true → str_lt b c = true →
    str_lt a c = true
  | [], [], _, h, _ => by simp [str_lt] at h
  | [], _ :: _, [], _, h => by simp [str_lt] at h
  | [], _ :: _, _ :: _, _, _ => by simp [str_lt]
  | _ :: _, [], _, h, _ => by simp [str_lt] at h
  | _ :: _, _ :: _, [], _, h => by simp [str_lt] at h
  | x :: s, y :: t, z :: u, h1, h2 => by
    unfold str_lt at h1 h2 ⊢
    by_cases hxy : x.toNat < y.toNat
    · by_cases hyz : y.toNat < z.toNat
      · have : x.toNat < z.toNat := by omega
        simp [this]
      · by_cases hzy : z.toNat < y.toNat
        · simp [hyz, hzy] at h2
        · have : x.toNat < z.toNat := by omega
          simp [this]
    · by_cases hyx : y.toNat < x.toNat
      · simp [hxy, hyx] at h1
      · simp only [hxy, hyx, if_false] at h1
        by_cases hyz : y.toNat < z.toNat
        · have : x.toNat < z.toNat := by omega
          simp [this]
        · by_cases hzy : z.toNat < y.toNat
          · simp [hyz, hzy] at h2
          · simp only [hyz, hzy, if_false] at h2
            have e1 : ¬ x.toNat < z.toNat := by omega
            have e2 : ¬ z.toNat < x.toNat := by omega
            simp only [e1, e2, if_false]
            exact str_lt_trans s t u h1 h2

theorem pair_lt_irrefl (x : HideEntry) : pair_lt x x = false := by
  simp [pair_lt, str_lt_irrefl]

theorem pair_lt_trans (x y z : HideEntry) (h1 : pair_lt x y = true) (h2 : pair_lt y z = true) :
    pair_lt x z = true := by
  obtain ⟨x1, x2⟩ := x
  obtain ⟨y1, y2⟩ := y
  obtain ⟨z1, z2⟩ := z
  simp only [pair_lt, Bool.or_eq_true, Bool.and_eq_true, Bool.not_eq_true'] at h1 h2 ⊢
  have key : str_lt x1 z1 = true ∨ (x1 = y1 ∧ y1 = z1 ∧ str_lt x2 y2 = true ∧
      str_lt y2 z2 = true) := by
    rcases h1 with h1 | ⟨h1a, h1b⟩
    · rcases h2 with h2 | ⟨h2a, _⟩
      · exact Or.inl (str_lt_trans _ _ _ h1 h2)
      · by_cases hyz : str_lt y1 z1 = true
        · exact Or.inl (str_lt_trans _ _ _ h1 hyz)
        · have e : y1 = z1 := str_lt_total y1 z1 (by simpa using hyz) h2a
          rw [← e]; exact Or.inl h1
    · by_cases hxy : str_lt x1 y1 = true
      · rcases h2 with h2 | ⟨h2a, _⟩
        · exact Or.inl (str_lt_trans _ _ _ hxy h2)
        · by_cases hyz : str_lt y1 z1 = true
          · exact Or.inl (str_lt_trans _ _ _ hxy hyz)
          · have e : y1 = z1 := str_lt_total y1 z1 (by simpa using hyz) h2a
            rw [← e]; exact Or.inl hxy
      · have e1 : x1 = y1 := str_lt_total x1 y1 (by simpa using hxy) h1a
        rcases h2 with h2 | ⟨h2a, h2b⟩
        · rw [e1]; exact Or.inl h2
        · by_cases hyz : str_lt y1 z1 = true
          · rw [e1]; exact Or.inl hyz
          · have e2 : y1 = z1 := str_lt_total y1 z1 (by simpa using hyz) h2a
            exact Or.inr ⟨e1, e2, h1b, h2b⟩
  rcases key with h | ⟨e1, e2, h3, h4⟩
  · exact Or.inl h
  · subst e1
    subst e2
    exact Or.inr ⟨str_lt_irrefl x1, str_lt_trans _ _ _ h3 h4⟩

theorem set_sorted_emplace (x : HideEntry) (l : List HideEntry) (h : set_sorted l) :
    set_sorted (set_emplace x l) := by
  induction l with
  | nil => simp [set_emplace, set_sorted]
  | cons y ys ih =>
    unfold set_sorted at h ih ⊢
    rw [List.pairwise_cons] at h
    unfold set_emplace
    by_cases h1 : pair_lt x y = true
    · rw [if_pos h1]
      refine List.pairwise_cons.2 ⟨?_, List.pairwise_cons.2 h⟩
      intro b hb
      rcases List.mem_cons.1 hb with rfl | hb
      · exact h1
      · exact pair_lt_trans _ _ _ h1 (h.1 b hb)
    · rw [if_neg h1]
      by_cases h2 : pair_lt y x = true
      · rw [if_pos h2]
        refine List.pairwise_cons.2 ⟨?_, ih h.2⟩
        intro b hb
        rcases (mem_set_emplace x b ys).1 hb with rfl | hb
        · exact h2
        · exact h.1 b hb
      · rw [if_neg h2]
        exact List.pairwise_cons.2 h

theorem set_sorted_emplace_rows (rows : List HideEntry) :
    ∀ set : List HideEntry, set_sorted set → set_sorted (emplace_rows rows set) := by
  induction rows with
  | nil => intro set h; exact h
  | cons row rest ih =>
    intro set h
    exact ih _ (set_sorted_emplace row set h)

/-- An ordered list whose entries all equal `x` is empty or the single `x`. -/
theorem set_sorted_all_eq (x : HideEntry) (l : List HideEntry) (h : set_sorted l)
    (hall : ∀ e ∈ l, e = x) : l = [] ∨ l = [x] := by
  cases l with
  | nil => exact Or.inl rfl
  | cons a rest =>
    right
    have ha : a = x := hall a (List.mem_cons_self _ _)
    cases rest with
    | nil => rw [ha]
    | cons b rest2 =>
      have hb : b = x := hall b (List.mem_cons_of_mem _ (List.mem_cons_self _ _))
      unfold set_sorted at h
      have := (List.pairwise_cons.1 h).1 b (List.mem_cons_self _ _)
      rw [ha, hb, pair_lt_irrefl] at this
      cases this

theorem set_emplace_of_all_eq (x : HideEntry) (l : List HideEntry) (h : set_sorted l)
    (hall : ∀ e ∈ l, e = x) : set_emplace x l = [x] := by
  rcases set_sorted_all_eq x l h hall with rfl | rfl
  · rfl
  · simp [set_emplace, pair_lt_irrefl]


/-! ## Loading the list -/

theorem mem_emplace_rows (rows : List HideEntry) :
    ∀ (set : List HideEntry) (e : HideEntry),
      e ∈ emplace_rows rows set ↔ e ∈ rows ∨ e ∈ set := by
  induction rows with
  | nil => intro set e; simp [emplace_rows]
  | cons row rest ih =>
    intro set e
    have := ih (set_emplace row set) e
    unfold emplace_rows at this ⊢
    simp only [List.foldl_cons, this, mem_set_emplace, List.mem_cons]
    tauto

theorem emplace_rows_append (rows more set : List HideEntry) :
    emplace_rows (rows ++ more) set = emplace_rows more (emplace_rows rows set) := by
  unfold emplace_rows
  rw [List.foldl_append]

/-- When the callback has run on every row, the rows are in `hide_set`, put in
one after the other, and nothing else has changed but the kill list. -/
theorem load_rows_spec (cfg : Config) (env : Env) (rows : List HideEntry) :
    ∀ s t : State, load_rows cfg env rows s = some t →
      t.hide_set = emplace_rows rows s.hide_set ∧ same_but_set s t ∧
      (cfg.zygisk_enabled = false → t.killed = s.killed) := by
  induction rows with
  | nil =>
    intro s t h
    simp only [load_rows, Option.some.injEq] at h
    subst h
    exact ⟨rfl, same_but_set_refl s, fun _ => rfl⟩
  | cons row rest ih =>
    intro s t h
    simp only [load_rows, Option.bind_eq_some] at h
    obtain ⟨u, hu, ht⟩ := h
    obtain ⟨h1, h2, h3, _⟩ := add_hide_set_spec cfg env row.1 row.2 s u hu
    obtain ⟨g1, g2, g3⟩ := ih u t ht
    refine ⟨?_, same_but_set_trans h2 g2, fun hz => (g3 hz).trans (h3 hz)⟩
    rw [g1, h1]
    rfl

theorem load_rows_returns (cfg : Config) (env : Env) (rows : List HideEntry) :
    ∀ s : State, (cfg.zygisk_enabled = false ∨ s.procfp = true) →
      ∃ t, load_rows cfg env rows s = some t := by
  induction rows with
  | nil => intro s _; exact ⟨s, rfl⟩
  | cons row rest ih =>
    intro s h
    obtain ⟨u, hu⟩ := add_hide_set_returns cfg env row.1 row.2 s h
    have hu2 : cfg.zygisk_enabled = false ∨ u.procfp = true := by
      rcases h with h | h
      · exact Or.inl h
      · exact Or.inr ((add_hide_set_spec _ _ _ _ _ _ hu).2.1.2.2.2.1.trans h)
    obtain ⟨t, ht⟩ := ih u hu2
    exact ⟨t, by simp only [load_rows, hu, Option.some_bind, ht]⟩

/-- The three scans of `init_list` change nothing but the kill list, and need an
open `procfp` when they run. -/
theorem kill_pools_spec (cfg : Config) (env : Env) (s t : State)
    (h : kill_pools cfg env s = some t) :
    t.hide_set = s.hide_set ∧ same_but_set s t ∧
    (cfg.zygisk_enabled = false → t.killed = s.killed) ∧
    (29 ≤ cfg.SDK_INT → cfg.zygisk_enabled = true →
      t.killed = kill_process env.procs "_zygote".toList true (proc_name_match str_ends_safe)
        (kill_process env.procs "usap64".toList true (proc_name_match str_eql)
          (kill_process env.procs "usap32".toList true (proc_name_match str_eql) s.killed))) := by
  unfold kill_pools at h
  by_cases hc : 29 ≤ cfg.SDK_INT ∧ cfg.zygisk_enabled = true
  · rw [if_pos hc] at h
    simp only [Option.bind_eq_some, Option.map_eq_some'] at h
    obtain ⟨k1, h1, k2, h2, k3, h3, rfl⟩ := h
    obtain ⟨_, e1⟩ := (kill_process_procfp_eq _ _ _ _ _ _ _).1 h1
    obtain ⟨_, e2⟩ := (kill_process_procfp_eq _ _ _ _ _ _ _).1 h2
    obtain ⟨_, e3⟩ := (kill_process_procfp_eq _ _ _ _ _ _ _).1 h3
    obtain ⟨m1, f1⟩ := kill_process_extends env.procs "usap32".toList true
      (proc_name_match str_eql) s.killed
    obtain ⟨m2, f2⟩ := kill_process_extends env.procs "usap64".toList true
      (proc_name_match str_eql) k1
    obtain ⟨m3, f3⟩ := kill_process_extends env.procs "_zygote".toList true
      (proc_name_match str_ends_safe) k2
    refine ⟨rfl, ⟨rfl, rfl, rfl, rfl, rfl, rfl, m1 ++ (m2 ++ m3), ?_⟩, ?_, ?_⟩
    · show k3 = s.killed ++ (m1 ++ (m2 ++ m3))
      rw [e3, f3, e2, f2, e1, f1, List.append_assoc, List.append_assoc]
    · intro hz
      rw [hc.2] at hz
      cases hz
    · intro _ _
      show k3 = _
      rw [e3, e2, e1]
  · rw [if_neg hc, Option.some.injEq] at h
    subst h
    refine ⟨rfl, same_but_set_refl s, fun _ => rfl, fun h1 h2 => absurd ⟨h1, h2⟩ hc⟩

theorem kill_pools_returns (cfg : Config) (env : Env) (s : State)
    (h : cfg.zygisk_enabled = false ∨ s.procfp = true) :
    ∃ t, kill_pools cfg env s = some t := by
  unfold kill_pools
  by_cases hc : 29 ≤ cfg.SDK_INT ∧ cfg.zygisk_enabled = true
  · have hpf : s.procfp = true := by
      rcases h with h | h
      · rw [hc.2] at h; cases h
      · exact h
    rw [if_pos hc]
    simp only [kill_process_procfp, hpf, if_true, Option.some_bind, Option.map_some']
    exact ⟨_, rfl⟩
  · rw [if_neg hc]
    exact ⟨s, rfl⟩

/-- The default entries are put into `hide_set`; nothing else changes but the
kill list. -/
theorem seed_defaults_spec (cfg : Config) (env : Env) (s t : State)
    (h : seed_defaults cfg env s = some t) :
    t.hide_set =
      (if cfg.MAGISKTMP ≠ "/sbin".toList then
        set_emplace (GMS_PKG, GMS_PKG) (set_emplace (GMS_PKG, SNET_PROC) s.hide_set)
      else set_emplace (GMS_PKG, SNET_PROC) s.hide_set) ∧
    same_but_set s t ∧ (cfg.zygisk_enabled = false → t.killed = s.killed) := by
  unfold seed_defaults at h
  rw [Option.bind_eq_some] at h
  obtain ⟨u, hu, ht⟩ := h
  obtain ⟨h1, h2, h3, _⟩ := add_hide_set_spec cfg env GMS_PKG SNET_PROC s u hu
  by_cases hm : cfg.MAGISKTMP ≠ "/sbin".toList
  · rw [if_pos hm] at ht ⊢
    obtain ⟨g1, g2, g3, _⟩ := add_hide_set_spec cfg env GMS_PKG GMS_PKG u t ht
    exact ⟨by rw [g1, h1], same_but_set_trans h2 g2, fun hz => (g3 hz).trans (h3 hz)⟩
  · rw [if_neg hm, Option.some.injEq] at ht
    rw [if_neg hm]
    subst ht
    exact ⟨h1, h2, h3⟩

theorem seed_defaults_returns (cfg : Config) (env : Env) (s : State)
    (h : cfg.zygisk_enabled = false ∨ s.procfp = true) :
    ∃ t, seed_defaults cfg env s = some t := by
  obtain ⟨u, hu⟩ := add_hide_set_returns cfg env GMS_PKG SNET_PROC s h
  have hu2 : cfg.zygisk_enabled = false ∨ u.procfp = true := by
    rcases h with h | h
    · exact Or.inl h
    · exact Or.inr ((add_hide_set_spec _ _ _ _ _ _ hu).2.1.2.2.2.1.trans h)
  unfold seed_defaults
  rw [hu, Option.some_bind]
  split
  · exact add_hide_set_returns cfg env GMS_PKG GMS_PKG u hu2
  · exact ⟨u, rfl⟩

/-- What a returning `init_list` leaves. It reports success exactly when the
SELECT succeeded. The table of the store and every variable but `hide_set` and
the kill list are as before. After a success `hide_set` is the old set with
every row of the store and then the default entries put in; in any case it is
the old set with rows of the store and default entries put in. -/
theorem init_list_spec (cfg : Config) (env : Env) (s : State) (r : Bool × State)
    (h : init_list cfg env s = some r) :
    r.1 = !env.select_fail.isSome ∧
    r.2.hide_state = s.hide_state ∧ r.2.uid_proc_map = s.uid_proc_map ∧
    r.2.db.hidelist = s.db.hidelist ∧ r.2.procfp = s.procfp ∧
    (cfg.zygisk_enabled = false → r.2.killed = s.killed) ∧
    (r.1 = true → r.2.hide_set =
      (if cfg.MAGISKTMP ≠ "/sbin".toList then
        set_emplace (GMS_PKG, GMS_PKG)
          (set_emplace (GMS_PKG, SNET_PROC) (emplace_rows s.db.hidelist s.hide_set))
      else set_emplace (GMS_PKG, SNET_PROC) (emplace_rows s.db.hidelist s.hide_set))) ∧
    (∃ added, (∀ e ∈ added, e ∈ s.db.hidelist ∨ seeded cfg e) ∧
      r.2.hide_set = emplace_rows added s.hide_set) := by
  unfold init_list at h
  simp only [] at h
  rw [Option.bind_eq_some] at h
  obtain ⟨s2, hs2, h⟩ := h
  obtain ⟨l1, ⟨a1, a2, a3, a4, _, _, _⟩, l3⟩ := load_rows_spec cfg env _ _ _ hs2
  simp only at l1 a1 a2 a3 a4 l3
  cases hsel : env.select_fail with
  | some n =>
    simp only [hsel, Option.isSome_some, if_true, Option.some.injEq] at h
    subst h
    simp only [select_rows, hsel] at l1
    refine ⟨rfl, a1, a2, by rw [a3], a4, l3, (fun hc => by cases hc), ?_⟩
    exact ⟨s.db.hidelist.take n, fun e he => Or.inl (List.mem_of_mem_take he), l1⟩
  | none =>
    simp only [hsel, Option.isSome_none, Bool.false_eq_true, if_false, Option.map_eq_some',
      Option.bind_eq_some] at h
    obtain ⟨s5, ⟨s3, hs3, hs5⟩, rfl⟩ := h
    simp only [select_rows, hsel] at l1
    obtain ⟨k1, ⟨b1, b2, b3, b4, _, _, _⟩, k3, _⟩ := kill_pools_spec cfg env s2 s3 hs3
    obtain ⟨d1, ⟨c1, c2, c3, c4, _, _, _⟩, d3⟩ := seed_defaults_spec cfg env s3 s5 hs5
    have hform : s5.hide_set =
        (if cfg.MAGISKTMP ≠ "/sbin".toList then
          set_emplace (GMS_PKG, GMS_PKG)
            (set_emplace (GMS_PKG, SNET_PROC) (emplace_rows s.db.hidelist s.hide_set))
        else set_emplace (GMS_PKG, SNET_PROC) (emplace_rows s.db.hidelist s.hide_set)) := by
      rw [d1, k1, l1]
    refine ⟨rfl, c1.trans (b1.trans a1), c2.trans (b2.trans a2), by rw [c3, b3, a3],
      c4.trans (b4.trans a4), fun hz => (d3 hz).trans ((k3 hz).trans (l3 hz)),
      fun _ => hform, ?_⟩
    by_cases hm : cfg.MAGISKTMP ≠ "/sbin".toList
    · rw [if_pos hm] at hform
      refine ⟨s.db.hidelist ++ [(GMS_PKG, SNET_PROC), (GMS_PKG, GMS_PKG)], ?_, ?_⟩
      · intro e he
        rcases List.mem_append.1 he with he | he
        · exact Or.inl he
        · simp only [List.mem_cons, List.mem_singleton, List.not_mem_nil, or_false] at he
          rcases he with he | he
          · exact Or.inr (Or.inl he)
          · exact Or.inr (Or.inr ⟨hm, he⟩)
      · rw [hform, emplace_rows_append]
        rfl
    · rw [if_neg hm] at hform
      refine ⟨s.db.hidelist ++ [(GMS_PKG, SNET_PROC)], ?_, ?_⟩
      · intro e he
        rcases List.mem_append.1 he with he | he
        · exact Or.inl he
        · exact Or.inr (Or.inl (List.mem_singleton.1 he))
      · rw [hform, emplace_rows_append]
        rfl

/-- The call of `init_list` returns when the injection layer is inactive or
`procfp` is open. -/
theorem init_list_returns (cfg : Config) (env : Env) (s : State)
    (h : cfg.zygisk_enabled = false ∨ s.procfp = true) :
    ∃ r, init_list cfg env s = some r := by
  unfold init_list
  simp only []
  obtain ⟨s2, hs2⟩ := load_rows_returns cfg env (select_rows env s.db)
    { s with db := { s.db with log := s.db.log ++ ["SELECT * FROM hidelist".toList] } } h
  rw [hs2, Option.some_bind]
  have h2 : cfg.zygisk_enabled = false ∨ s2.procfp = true := by
    rcases h with h | h
    · exact Or.inl h
    · exact Or.inr ((load_rows_spec _ _ _ _ _ hs2).2.1.2.2.2.1.trans h)
  split
  · exact ⟨_, rfl⟩
  · obtain ⟨s3, hs3⟩ := kill_pools_returns cfg env s2 h2
    have h3 : cfg.zygisk_enabled = false ∨ s3.procfp = true := by
      rcases h2 with h2 | h2
      · exact Or.inl h2
      · exact Or.inr ((kill_pools_spec _ _ _ _ hs3).2.1.2.2.2.1.trans h2)
    obtain ⟨s5, hs5⟩ := seed_defaults_returns cfg env s3 h3
    rw [hs3, Option.some_bind, hs5]
    exact ⟨_, rfl⟩

/-! ## Fields left alone by the helpers -/

theorem update_hide_config_fields (cfg : Config) (env : Env) (s : State) :
    (update_hide_config cfg env s).hide_state = s.hide_state ∧
    (update_hide_config cfg env s).hide_set = s.hide_set ∧
    (update_hide_config cfg env s).uid_proc_map = s.uid_proc_map := by
  unfold update_hide_config
  split <;> simp

theorem update_uid_map_fields (cfg : Config) (env : Env) (s : State) :
    (update_uid_map cfg env s).hide_state = s.hide_state ∧
    (update_uid_map cfg env s).hide_set = s.hide_set ∧
    (update_uid_map cfg env s).db = s.db ∧
    (update_uid_map cfg env s).killed = s.killed := by
  unfold update_uid_map
  split
  · simp
  · split <;> simp

theorem rm_loop_nil (pkg proc : Name) (b : Bool) : rm_loop pkg proc [] b = ([], b) := rfl

theorem rm_list_hide_state (env : Env) (pkg proc : Name) (s : State) :
    (rm_list env pkg proc s).2.hide_state = s.hide_state := by
  unfold rm_list
  simp only []
  split <;> rfl

theorem rm_list_client_hide_state (cfg : Config) (env : Env) (pkg proc : Name) (s : State) :
    (rm_list_client cfg env pkg proc s).2.hide_state = s.hide_state := by
  unfold rm_list_client
  simp only []
  split
  · simp [(update_uid_map_fields _ _ _).1, rm_list_hide_state]
  · exact rm_list_hide_state _ _ _ _

/-- With an empty `hide_set` the remove command finds nothing and changes nothing. -/
theorem rm_list_client_of_empty (cfg : Config) (env : Env) (pkg proc : Name) (s : State)
    (h : s.hide_set = []) :
    rm_list_client cfg env pkg proc s = (Code.HIDE_ITEM_NOT_EXIST, s) := by
  cases s
  simp only at h
  subst h
  simp [rm_list_client, rm_list, rm_loop]

theorem stop_magiskhide_eq (cfg : Config) (env : Env) (s : State) (h : s.hide_state = false) :
    stop_magiskhide cfg env s = (Code.DAEMON_SUCCESS, update_hide_config cfg env s) := by
  cases s
  simp only at h
  subst h
  simp [stop_magiskhide]

theorem update_hide_config_of_disabled (cfg : Config) (env : Env) (t : State)
    (h : t.hide_state = false) :
    update_hide_config cfg env t =
      { t with db := { t.db with
          hide_config := if env.config_ok then false else t.db.hide_config,
          log := t.db.log ++ [sql_replace_config cfg.HIDE_CONFIG_KEY false] } } := by
  cases t
  simp only at h
  subst h
  unfold update_hide_config
  cases env.config_ok <;> simp

theorem stop_magiskhide_fields (cfg : Config) (env : Env) (s : State) :
    (stop_magiskhide cfg env s).1 = Code.DAEMON_SUCCESS ∧
    (stop_magiskhide cfg env s).2.hide_state = false ∧
    (s.hide_state = true →
      (stop_magiskhide cfg env s).2.hide_set = [] ∧
      (stop_magiskhide cfg env s).2.uid_proc_map = [] ∧
      (stop_magiskhide cfg env s).2.monitor = false ∧
      (stop_magiskhide cfg env s).2.inotify_fd = -1) := by
  unfold stop_magiskhide
  refine ⟨rfl, ?_, ?_⟩
  · simp only []
    rw [(update_hide_config_fields _ _ _).1]
  · intro h
    simp only [h, if_true]
    unfold update_hide_config
    split <;> simp

theorem update_hide_config_hidelist (cfg : Config) (env : Env) (s : State) :
    (update_hide_config cfg env s).db.hidelist = s.db.hidelist := by
  unfold update_hide_config
  split <;> rfl


/-! ## What `launch_magiskhide` does -/

theorem launch_finish_fields (cfg : Config) (env : Env) (t : State) :
    (launch_finish cfg env t).hide_set = t.hide_set ∧
    (launch_finish cfg env t).hide_state = true ∧
    (launch_finish cfg env t).procfp = t.procfp ∧
    (launch_finish cfg env t).db.hidelist = t.db.hidelist ∧
    (cfg.zygisk_enabled = false → (launch_finish cfg env t).uid_proc_map = t.uid_proc_map) ∧
    (launch_finish cfg env t).killed = t.killed := by
  unfold launch_finish update_uid_map update_hide_config
  cases cfg.zygisk_enabled <;> cases env.config_ok <;> cases env.users <;> simp

/-- The call of `launch_magiskhide` always returns: `procfp` is open before
`init_list` runs. -/
theorem launch_magiskhide_returns (cfg : Config) (env : Env) (late_props : Bool) (s : State) :
    ∃ r, launch_magiskhide cfg env late_props s = some r := by
  unfold launch_magiskhide
  simp only []
  split
  · exact ⟨_, rfl⟩
  · split
    · exact ⟨_, rfl⟩
    · split
      · exact ⟨_, rfl⟩
      · obtain ⟨r0, hr0⟩ := init_list_returns cfg env { s with procfp := true } (Or.inr rfl)
        rw [hr0]
        exact ⟨_, rfl⟩

/-- What a returning `launch_magiskhide` leaves. The table of the store is as
before. Either the state is the one it was given, or `init_list` has run with
`procfp` open and built `hide_set`. When the code is `DAEMON_SUCCESS`,
`hide_state` was false, `init_list` succeeded, and `hide_state` is now true. -/
theorem launch_magiskhide_spec (cfg : Config) (env : Env) (late_props : Bool) (s : State)
    (r : Code × State) (h : launch_magiskhide cfg env late_props s = some r) :
    r.2.db.hidelist = s.db.hidelist ∧
    (cfg.zygisk_enabled = false → r.2.uid_proc_map = s.uid_proc_map) ∧
    (r.2 = s ∨
      ∃ r0, init_list cfg env { s with procfp := true } = some r0 ∧
        r.2.hide_set = r0.2.hide_set ∧ r.2.procfp = true) ∧
    (r.1 = Code.DAEMON_SUCCESS →
      s.hide_state = false ∧ r.2.hide_state = true ∧ r.2.procfp = true ∧
      env.thread_ok = true ∧
      ∃ r0, init_list cfg env { s with procfp := true } = some r0 ∧ r0.1 = true ∧
        r.2.hide_set = r0.2.hide_set) := by
  unfold launch_magiskhide at h
  simp only [] at h
  by_cases h1 : s.hide_state = true
  · rw [if_pos h1, Option.some.injEq] at h
    subst h
    exact ⟨rfl, fun _ => rfl, Or.inl rfl, fun hc => by cases hc⟩
  · rw [if_neg h1] at h
    by_cases h2 : (!env.ns_ok) = true
    · rw [if_pos h2, Option.some.injEq] at h
      subst h
      exact ⟨rfl, fun _ => rfl, Or.inl rfl, fun hc => by cases hc⟩
    · rw [if_neg h2] at h
      by_cases h3 : (!s.procfp && !env.opendir_ok) = true
      · rw [if_pos h3, Option.some.injEq] at h
        subst h
        exact ⟨rfl, fun _ => rfl, Or.inl rfl, fun hc => by cases hc⟩
      · rw [if_neg h3, Option.map_eq_some'] at h
        obtain ⟨r0, hr0, hr⟩ := h
        obtain ⟨_, i1, i2, i3, i4, _, _, _⟩ := init_list_spec cfg env _ r0 hr0
        simp only at i1 i2 i3 i4
        by_cases h4 : (!r0.1) = true
        · rw [if_pos h4] at hr
          subst hr
          exact ⟨i3, fun _ => i2, Or.inr ⟨r0, hr0, rfl, i4⟩, fun hc => by cases hc⟩
        · rw [if_neg h4] at hr
          by_cases h5 : (!env.thread_ok) = true
          · rw [if_pos h5] at hr
            subst hr
            exact ⟨i3, fun _ => i2, Or.inr ⟨r0, hr0, rfl, i4⟩, fun hc => by cases hc⟩
          · rw [if_neg h5] at hr
            subst hr
            obtain ⟨f1, f2, f3, f4, f5, _⟩ := launch_finish_fields cfg env r0.2
            exact ⟨f4.trans i3, fun hz => (f5 hz).trans i2,
              Or.inr ⟨r0, hr0, f1, f3.trans i4⟩, fun _ =>
              ⟨by simpa using h1, f2, f3.trans i4, by simpa using h5, r0, hr0,
                by simpa using h4, f1⟩⟩

/-! ## The open handle is kept -/

theorem update_uid_map_procfp (cfg : Config) (env : Env) (s : State) :
    (update_uid_map cfg env s).procfp = s.procfp := by
  unfold update_uid_map
  split
  · rfl
  · split <;> rfl

theorem rm_list_procfp (env : Env) (pkg proc : Name) (s : State) :
    (rm_list env pkg proc s).2.procfp = s.procfp := by
  unfold rm_list
  simp only []
  split <;> rfl

theorem rm_list_client_procfp (cfg : Config) (env : Env) (pkg proc : Name) (s : State) :
    (rm_list_client cfg env pkg proc s).2.procfp = s.procfp := by
  unfold rm_list_client
  simp only []
  split
  · simp [update_uid_map_procfp, rm_list_procfp]
  · exact rm_list_procfp _ _ _ _

/-- The add command returns when the injection layer is inactive or `procfp` is
open; it leaves `hide_state` and `procfp` as they were. -/
theorem add_list_client_returns (cfg : Config) (env : Env) (pkg proc : Name) (s : State)
    (h : cfg.zygisk_enabled = false ∨ s.procfp = true) :
    ∃ r, add_list_client cfg env pkg proc s = some r ∧
      r.2.hide_state = s.hide_state ∧ r.2.procfp = s.procfp := by
  obtain ⟨r0, hr0⟩ := add_list_returns cfg env pkg proc s h
  obtain ⟨a1, _, a3, _⟩ := add_list_sets cfg env pkg proc s r0 hr0
  refine ⟨_, (add_list_client_some cfg env pkg proc s _).2 ⟨r0, hr0, rfl⟩, ?_, ?_⟩
  · split
    · exact ((update_uid_map_fields _ _ _).1).trans a1
    · exact a1
  · split
    · exact (update_uid_map_procfp _ _ _).trans a3
    · exact a3

/-! ## The sample states -/

/-- The sequence that defines `st_on` runs to its end. -/
theorem st_on_reached :
    run cfg0 (State.initial db0) [(Op.enable false, env0)] = some st_on := rfl

/-- The sequence that defines `st_sample` runs to its end. -/
theorem st_sample_reached :
    run cfg0 (State.initial db0)
      [(Op.enable false, env0), (Op.add "isolated".toList "proc_abc".toList, env0),
       (Op.add "a.b".toList "abcd".toList, env0)] = some st_sample := rfl

/-! ## A disabled state holds no entries -/

theorem launch_magiskhide_cases (cfg : Config) (env : Env) (late_props : Bool) (s : State)
    (hg : guard s (Op.enable late_props, env) = true) :
    ∃ r, launch_magiskhide cfg env late_props s = some r ∧
      (r.2 = s ∨ (r.2.hide_state = true ∧ r.2.procfp = true)) := by
  obtain ⟨r, hr⟩ := launch_magiskhide_returns cfg env late_props s
  refine ⟨r, hr, ?_⟩
  have hs := launch_magiskhide_spec cfg env late_props s r hr
  unfold launch_magiskhide at hr
  simp only [] at hr
  by_cases h1 : s.hide_state = true
  · rw [if_pos h1, Option.some.injEq] at hr
    subst hr
    exact Or.inl rfl
  · rw [if_neg h1] at hr
    by_cases h2 : (!env.ns_ok) = true
    · rw [if_pos h2, Option.some.injEq] at hr
      subst hr
      exact Or.inl rfl
    · rw [if_neg h2] at hr
      by_cases h3 : (!s.procfp && !env.opendir_ok) = true
      · rw [if_pos h3, Option.some.injEq] at hr
        subst hr
        exact Or.inl rfl
      · rw [if_neg h3, Option.map_eq_some'] at hr
        obtain ⟨r0, hr0, hr⟩ := hr
        simp only [guard, Bool.or_eq_true, Bool.and_eq_true] at hg
        have hok : env.select_fail.isNone = true ∧ env.thread_ok = true := by
          rcases hg with ((hg | hg) | hg) | hg
          · exact absurd hg h1
          · exact absurd hg h2
          · exact absurd (by simpa using hg) h3
          · exact hg
        have hsel : env.select_fail = none := by simpa using hok.1
        have h4 : r0.1 = true := by
          rw [(init_list_spec cfg env _ r0 hr0).1, hsel]
          rfl
        rw [h4, hok.2] at hr
        simp only [Bool.not_true, Bool.false_eq_true, if_false] at hr
        have hc : r.1 = Code.DAEMON_SUCCESS := by rw [← hr]
        obtain ⟨_, g2, g3, _⟩ := hs.2.2.2 hc
        exact Or.inr ⟨g2, g3⟩

theorem step_preserves (cfg : Config) (s : State) (c : Op × Env)
    (hg : guard s c = true) (hs : disabled_empty s) (ho : enabled_open s) :
    ∃ r, step cfg s c = some r ∧ disabled_empty r.2 ∧ enabled_open r.2 := by
  obtain ⟨op, env⟩ := c
  cases op with
  | add pkg proc =>
    have hst : s.hide_state = true := by simpa [guard] using hg
    obtain ⟨r, hr, h1, h2⟩ := add_list_client_returns cfg env pkg proc s (Or.inr (ho hst))
    refine ⟨r, hr, ?_, ?_⟩
    · intro h
      rw [h1, hst] at h
      cases h
    · intro _
      rw [h2]
      exact ho hst
  | remove pkg proc =>
    refine ⟨_, rfl, ?_, ?_⟩
    · intro h
      rw [rm_list_client_hide_state] at h
      have he := hs h
      rw [rm_list_client_of_empty cfg env pkg proc s he.1]
      exact he
    · intro h
      rw [rm_list_client_hide_state] at h
      rw [rm_list_client_procfp]
      exact ho h
  | enable late_props =>
    obtain ⟨r, hr, h1⟩ := launch_magiskhide_cases cfg env late_props s hg
    refine ⟨r, hr, ?_, ?_⟩
    · rcases h1 with h1 | h1
      · rw [h1]
        exact hs
      · intro h
        rw [h1.1] at h
        cases h
    · rcases h1 with h1 | h1
      · rw [h1]
        exact ho
      · intro _
        exact h1.2
  | disable =>
    refine ⟨_, rfl, ?_, ?_⟩
    · intro _
      by_cases hst : s.hide_state = true
      · obtain ⟨_, _, h3⟩ := stop_magiskhide_fields cfg env s
        exact ⟨(h3 hst).1, (h3 hst).2.1⟩
      · have hf : s.hide_state = false := by simpa using hst
        rw [stop_magiskhide_eq cfg env s hf]
        obtain ⟨_, h2, h3⟩ := update_hide_config_fields cfg env s
        show (update_hide_config cfg env s).hide_set = [] ∧
          (update_hide_config cfg env s).uid_proc_map = []
        rw [h2, h3]
        exact hs hf
    · intro h
      rw [(stop_magiskhide_fields cfg env s).2.1] at h
      cases h

theorem run_preserves (cfg : Config) (trace : List (Op × Env)) :
    ∀ s : State, admissible cfg s trace = true → disabled_empty s → enabled_open s →
      ∃ st, run cfg s trace = some st ∧ disabled_empty st ∧ enabled_open st := by
  induction trace with
  | nil => intro s _ hs ho; exact ⟨s, rfl, hs, ho⟩
  | cons c rest ih =>
    intro s ha hs ho
    simp only [admissible, Bool.and_eq_true] at ha
    obtain ⟨r, hr, h1, h2⟩ := step_preserves cfg s c ha.1 hs ho
    have ha2 := ha.2
    rw [hr] at ha2
    obtain ⟨st, hst, g1, g2⟩ := ih r.2 ha2 h1 h2
    refine ⟨st, ?_, g1, g2⟩
    simp only [run, hr, Option.some_bind]
    exact hst

/-- C1 (counterexample): an add issued after an enable and a disable returns
and leaves `hide_state` false with a non-empty `hide_set` and a non-empty
`uid_proc_map`; with the injection layer inactive an add issued in the initial
state leaves `hide_state` false with a non-empty `hide_set`; an enable attempt
whose monitor thread cannot be started leaves `hide_state` false with the
default entry in `hide_set`. -/
theorem disabled_state_not_empty :
    (run cfg0 (State.initial db0)
      [(Op.enable false, env0), (Op.disable, env0), (Op.add "a.b".toList [], env0)]).map
        (fun st => (st.hide_state, st.hide_set))
      = some (false, [("a.b".toList, "a.b".toList)]) ∧
    (run cfg0 (State.initial db0)
      [(Op.enable false, env0), (Op.disable, env0), (Op.add "a.b".toList [], env0)]).map
        (fun st => st.uid_proc_map)
      = some [(10010, ["a.b".toList])] ∧
    (run cfg_off (State.initial db0) [(Op.add "a.b".toList [], env0)]).map
        (fun st => (st.hide_state, st.hide_set))
      = some (false, [("a.b".toList, "a.b".toList)]) ∧
    (run cfg0 (State.initial db0)
      [(Op.enable false, { env0 with thread_ok := false })]).map
        (fun st => (st.hide_state, st.hide_set))
      = some (false, [(GMS_PKG, SNET_PROC)]) :=
  ⟨by decide, by decide, by decide, by decide⟩

/-- C1 (amended): every sequence of add, remove, enable and disable from the
initial state, in which each add is issued while `hide_state` is true and no
enable attempt fails inside `init_list` or at the start of the monitor thread,
runs to its end, and in the state it reaches a false `hide_state` comes with
an empty `hide_set` and an empty `uid_proc_map`. -/
theorem disabled_state_empty (cfg : Config) (db : Db) (trace : List (Op × Env))
    (h : admissible cfg (State.initial db) trace = true) :
    ∃ st, run cfg (State.initial db) trace = some st ∧
      (st.hide_state = false → st.hide_set = [] ∧ st.uid_proc_map = []) := by
  obtain ⟨st, hst, h1, _⟩ := run_preserves cfg trace (State.initial db) h
    (fun _ => ⟨rfl, rfl⟩) (fun hc => by cases hc)
  exact ⟨st, hst, h1⟩

/-- Witness for C1: enable, add, remove, disable, then a remove while disabled. -/
theorem disabled_state_empty_witness :
    admissible cfg0 (State.initial db0)
      [(Op.enable false, env0), (Op.add "a.b".toList [], env0),
       (Op.remove "a.b".toList [], env0), (Op.disable, env0),
       (Op.remove "a.b".toList [], env0)] = true ∧
    (run cfg0 (State.initial db0)
      [(Op.enable false, env0), (Op.add "a.b".toList [], env0),
       (Op.remove "a.b".toList [], env0), (Op.disable, env0),
       (Op.remove "a.b".toList [], env0)]).map State.hide_state = some false ∧
    ∃ st, run cfg0 (State.initial db0)
      [(Op.enable false, env0), (Op.add "a.b".toList [], env0),
       (Op.remove "a.b".toList [], env0), (Op.disable, env0),
       (Op.remove "a.b".toList [], env0)] = some st ∧
      (st.hide_state = false → st.hide_set = [] ∧ st.uid_proc_map = []) :=
  ⟨by decide, by decide, disabled_state_empty cfg0 db0 _ (by decide)⟩

/-! ## Add, list, add again -/

/-- When the pair passes `validate`, is not in `hide_set`, the INSERT succeeds,
and the injection layer is inactive or `procfp` is open, `add_list` returns
`DAEMON_SUCCESS`, the new `hide_set` holds the old entries and that pair and
nothing else, with one element more, and `ls_list` lists accordingly; a second
`add_list` of the pair, in any environment, returns `HIDE_ITEM_EXIST` and
leaves the whole state as it is. An empty `proc` stands for `pkg`. -/
theorem add_then_list (cfg : Config) (env : Env) (pkg proc : Name) (s : State)
    (hv : validate cfg pkg (if proc = [] then pkg else proc) = true)
    (hn : (pkg, (if proc = [] then pkg else proc)) ∉ s.hide_set)
    (hdb : env.db_ok = true)
    (hp : cfg.zygisk_enabled = false ∨ s.procfp = true) :
    ∃ r, add_list cfg env pkg proc s = some r ∧ r.1 = Code.DAEMON_SUCCESS ∧
      (∀ e : HideEntry, e ∈ r.2.hide_set ↔
        e = (pkg, (if proc = [] then pkg else proc)) ∨ e ∈ s.hide_set) ∧
      r.2.hide_set.length = s.hide_set.length + 1 ∧
      (∀ x : Nat × Name, x ∈ ls_list r.2 ↔
        x = ((pkg.length + (if proc = [] then pkg else proc).length + 1,
              pkg ++ '|' :: (if proc = [] then pkg else proc))) ∨ x ∈ ls_list s) ∧
      (∀ env2 : Env, add_list cfg env2 pkg proc r.2 = some (Code.HIDE_ITEM_EXIST, r.2)) := by
  obtain ⟨t, ht⟩ := add_hide_set_returns cfg env pkg (if proc = [] then pkg else proc)
    { s with db := { s.db with
        hidelist := s.db.hidelist ++ [(pkg, (if proc = [] then pkg else proc))],
        log := s.db.log ++ [sql_insert pkg (if proc = [] then pkg else proc)] } } hp
  have hset := (add_hide_set_spec cfg env pkg _ _ t ht).1
  simp only at hset
  refine ⟨(Code.DAEMON_SUCCESS, t), ?_, rfl, ?_, ?_, ?_, ?_⟩
  · rw [add_list_success cfg env pkg proc s hv hn hdb, ht]
    rfl
  · intro e
    simp only [hset]
    exact mem_set_emplace _ e s.hide_set
  · simp only [hset]
    exact length_set_emplace _ _ hn
  · intro x
    simp only [ls_list, hset, List.mem_map, mem_set_emplace]
    constructor
    · rintro ⟨e, he | he, rfl⟩
      · left; rw [he]
      · right; exact ⟨e, he, rfl⟩
    · rintro (h | ⟨e, he, rfl⟩)
      · exact ⟨_, Or.inl rfl, h.symm⟩
      · exact ⟨e, Or.inr he, rfl⟩
  · intro env2
    apply add_list_exist cfg env2 pkg proc _ hv
    simp only [hset]
    exact (mem_set_emplace _ _ _).2 (Or.inl rfl)

/-- With the injection layer active and `procfp` not yet opened, `add_list` of
a valid new pair with a successful INSERT does not return: `add_hide_set`
starts a scan of `/proc` through the null handle. -/
theorem add_list_faults (cfg : Config) (env : Env) (pkg proc : Name) (s : State)
    (hv : validate cfg pkg (if proc = [] then pkg else proc) = true)
    (hn : (pkg, (if proc = [] then pkg else proc)) ∉ s.hide_set)
    (hdb : env.db_ok = true)
    (hz : cfg.zygisk_enabled = true) (hp : s.procfp = false) :
    add_list cfg env pkg proc s = none := by
  have hf := add_hide_set_faults cfg env pkg (if proc = [] then pkg else proc)
    { s with db := { s.db with
        hidelist := s.db.hidelist ++ [(pkg, (if proc = [] then pkg else proc))],
        log := s.db.log ++ [sql_insert pkg (if proc = [] then pkg else proc)] } } hz hp
  rw [add_list_success cfg env pkg proc s hv hn hdb, hf]
  rfl

/-- C2 (failing input): the first command after the start of the daemon is the
add of `com.example.app` with an empty process name, with the injection layer
active. The pair passes `validate`, is not in `hide_set`, and the INSERT
succeeds, but `procfp` has not been opened, and neither `add_list` nor the add
command returns a code. The same add issued after an enable returns
`DAEMON_SUCCESS` and `hide_set` gains the pair. -/
theorem add_before_enable_faults :
    validate cfg0 "com.example.app".toList "com.example.app".toList = true ∧
    ("com.example.app".toList, "com.example.app".toList) ∉ (State.initial db0).hide_set ∧
    env0.db_ok = true ∧ cfg0.zygisk_enabled = true ∧
    (State.initial db0).procfp = false ∧
    add_list cfg0 env0 "com.example.app".toList [] (State.initial db0) = none ∧
    add_list_client cfg0 env0 "com.example.app".toList [] (State.initial db0) = none ∧
    (add_list cfg0 env0 "com.example.app".toList [] st_on).map
        (fun r => (r.1, r.2.hide_set))
      = some (Code.DAEMON_SUCCESS,
          [("com.example.app".toList, "com.example.app".toList), (GMS_PKG, SNET_PROC)]) :=
  ⟨by decide, by decide, by decide, by decide, by decide, by decide, by decide, by decide⟩

/-! ## Removal -/

theorem rm_loop_eq (pkg proc : Name) (l : List HideEntry) :
    ∀ b : Bool, rm_loop pkg proc l b =
      (l.filter (fun it => !rm_match pkg proc it), b || l.any (rm_match pkg proc)) := by
  induction l with
  | nil => intro b; simp [rm_loop]
  | cons y ys ih =>
    intro b
    unfold rm_loop
    by_cases h : rm_match pkg proc y = true
    · rw [if_pos h, ih true]
      simp [h]
    · rw [if_neg h]
      simp only [ih b]
      simp [h]

theorem rm_list_hide_set (env : Env) (pkg proc : Name) (s : State) :
    (rm_list env pkg proc s).2.hide_set =
      s.hide_set.filter (fun it => !rm_match pkg proc it) := by
  unfold rm_list
  simp only [rm_loop_eq]
  split <;> rfl

theorem rm_list_code (env : Env) (pkg proc : Name) (s : State) :
    (rm_list env pkg proc s).1 =
      if s.hide_set.any (rm_match pkg proc) then Code.DAEMON_SUCCESS
      else Code.HIDE_ITEM_NOT_EXIST := by
  unfold rm_list
  simp only [rm_loop_eq, Bool.false_or]
  by_cases h : (s.hide_set.any (rm_match pkg proc)) = true
  · simp [h]
  · simp [h]

theorem rm_list_client_fst (cfg : Config) (env : Env) (pkg proc : Name) (s : State) :
    (rm_list_client cfg env pkg proc s).1 = (rm_list env pkg proc s).1 := by
  unfold rm_list_client
  simp only []
  split <;> rfl

theorem rm_list_client_hide_set (cfg : Config) (env : Env) (pkg proc : Name) (s : State) :
    (rm_list_client cfg env pkg proc s).2.hide_set = (rm_list env pkg proc s).2.hide_set := by
  unfold rm_list_client
  simp only []
  split
  · exact (update_uid_map_fields _ _ _).2.1
  · rfl

theorem rm_match_nil (pkg : Name) (it : HideEntry) :
    rm_match pkg [] it = decide (it.1 = pkg) := by
  by_cases h : it.1 = pkg <;> simp [rm_match, h]

/-- C3: `rm_list` with an empty `proc` leaves in `hide_set` exactly the entries
whose package differs from `pkg`, in their old order, and returns
`HIDE_ITEM_NOT_EXIST` if and only if no entry had that package; the command
`rm_list(int client)` does the same. -/
theorem remove_owner (cfg : Config) (env : Env) (pkg : Name) (s : State) :
    (rm_list env pkg [] s).2.hide_set = s.hide_set.filter (fun it => decide (it.1 ≠ pkg)) ∧
    (∀ e : HideEntry, e ∈ (rm_list env pkg [] s).2.hide_set ↔ e ∈ s.hide_set ∧ e.1 ≠ pkg) ∧
    ((rm_list env pkg [] s).1 = Code.HIDE_ITEM_NOT_EXIST ↔ ∀ e ∈ s.hide_set, e.1 ≠ pkg) ∧
    (rm_list_client cfg env pkg [] s).2.hide_set
      = s.hide_set.filter (fun it => decide (it.1 ≠ pkg)) ∧
    ((rm_list_client cfg env pkg [] s).1 = Code.HIDE_ITEM_NOT_EXIST ↔
      ∀ e ∈ s.hide_set, e.1 ≠ pkg) := by
  have hset : (rm_list env pkg [] s).2.hide_set
      = s.hide_set.filter (fun it => decide (it.1 ≠ pkg)) := by
    rw [rm_list_hide_set]
    congr 1
    funext it
    simp [rm_match_nil]
  have hcode : (rm_list env pkg [] s).1 = Code.HIDE_ITEM_NOT_EXIST ↔
      ∀ e ∈ s.hide_set, e.1 ≠ pkg := by
    rw [rm_list_code]
    by_cases h : (s.hide_set.any (rm_match pkg [])) = true
    · rw [if_pos h]
      simp only [List.any_eq_true, rm_match_nil, decide_eq_true_eq] at h
      obtain ⟨e, he, h1⟩ := h
      constructor
      · intro hc; cases hc
      · intro hall; exact absurd h1 (hall e he)
    · rw [if_neg h]
      simp only [List.any_eq_true, rm_match_nil, decide_eq_true_eq, not_exists, not_and] at h
      constructor
      · intro _ e he h1
        exact h e he h1
      · intro _; rfl
  refine ⟨hset, ?_, hcode, ?_, ?_⟩
  · intro e
    rw [hset]
    simp
  · rw [rm_list_client_hide_set, hset]
  · rw [rm_list_client_fst]
    exact hcode

/-- C4 (counterexample): at daemon start the store still holds the row
`(a.b, a.b)` while `hide_set` is empty; `rm_list` of `a.b`, with an empty or
with the exact process name, returns `HIDE_ITEM_NOT_EXIST`, issues no
statement and leaves the row in the store. -/
theorem remove_keeps_rows :
    (rm_list env0 "a.b".toList [] (State.initial db1)).1 = Code.HIDE_ITEM_NOT_EXIST ∧
    ("a.b".toList, "a.b".toList) ∈ (rm_list env0 "a.b".toList [] (State.initial db1)).2.db.hidelist ∧
    (rm_list env0 "a.b".toList [] (State.initial db1)).2.db.log = [] ∧
    (rm_list env0 "a.b".toList "a.b".toList (State.initial db1)).1
      = Code.HIDE_ITEM_NOT_EXIST ∧
    ("a.b".toList, "a.b".toList) ∈
      (rm_list env0 "a.b".toList "a.b".toList (State.initial db1)).2.db.hidelist := by
  decide

/-- C4 (amended): `rm_list` issues the DELETE exactly when some entry of
`hide_set` matched. In that case it returns `DAEMON_SUCCESS`, one statement is
added to the log, and if the statement succeeds the store keeps exactly the
rows that do not match: no row of that package when `proc` is empty, no row
equal to `(pkg, proc)` otherwise. When nothing matched it returns
`HIDE_ITEM_NOT_EXIST` and the store is as before. -/
theorem remove_deletes_rows (env : Env) (pkg proc : Name) (s : State) :
    (s.hide_set.any (rm_match pkg proc) = true →
      (rm_list env pkg proc s).1 = Code.DAEMON_SUCCESS ∧
      (rm_list env pkg proc s).2.db.log = s.db.log ++
        [if proc = [] then sql_delete_pkg pkg else sql_delete_pair pkg proc] ∧
      (env.db_ok = true →
        (∀ row : HideEntry, row ∈ (rm_list env pkg proc s).2.db.hidelist ↔
          row ∈ s.db.hidelist ∧ ¬ (row.1 = pkg ∧ (proc = [] ∨ row.2 = proc))) ∧
        (proc = [] → ∀ row ∈ (rm_list env pkg proc s).2.db.hidelist, row.1 ≠ pkg) ∧
        (proc ≠ [] → (pkg, proc) ∉ (rm_list env pkg proc s).2.db.hidelist))) ∧
    (s.hide_set.any (rm_match pkg proc) = false →
      (rm_list env pkg proc s).1 = Code.HIDE_ITEM_NOT_EXIST ∧
      (rm_list env pkg proc s).2.db = s.db) := by
  constructor
  · intro h
    refine ⟨by rw [rm_list_code, if_pos h], ?_, ?_⟩
    · unfold rm_list
      simp only [rm_loop_eq, Bool.false_or, h]
      by_cases hp : proc = []
      · cases hdb : env.db_ok <;> simp [hp, db_exec]
      · cases hdb : env.db_ok <;> simp [hp, db_exec]
    · intro hdb
      have hrows : ∀ row : HideEntry, row ∈ (rm_list env pkg proc s).2.db.hidelist ↔
          row ∈ s.db.hidelist ∧ ¬ (row.1 = pkg ∧ (proc = [] ∨ row.2 = proc)) := by
        intro row
        unfold rm_list
        simp only [rm_loop_eq, Bool.false_or, h]
        by_cases hp : proc = []
        · simp [hp, db_exec, hdb]
        · simp [hp, db_exec, hdb]
          intro _
          tauto
      refine ⟨hrows, ?_, ?_⟩
      · intro hp row hrow h1
        exact ((hrows row).1 hrow).2 ⟨h1, Or.inl hp⟩
      · intro _ hmem
        exact ((hrows (pkg, proc)).1 hmem).2 ⟨rfl, Or.inr rfl⟩
  · intro h
    refine ⟨by rw [rm_list_code, h]; rfl, ?_⟩
    unfold rm_list
    simp [rm_loop_eq, h]

/-- Witness for C4: with `(a.b, a.b)` both in `hide_set` and in the store,
`rm_list` of `a.b` succeeds and the store holds no row of that package. -/
theorem remove_deletes_rows_witness :
    ({ State.initial db1 with hide_set := [("a.b".toList, "a.b".toList)] } : State).hide_set.any
        (rm_match "a.b".toList []) = true ∧
    (rm_list env0 "a.b".toList []
      { State.initial db1 with hide_set := [("a.b".toList, "a.b".toList)] }).1
        = Code.DAEMON_SUCCESS ∧
    (∀ row ∈ (rm_list env0 "a.b".toList []
      { State.initial db1 with hide_set := [("a.b".toList, "a.b".toList)] }).2.db.hidelist,
        row.1 ≠ "a.b".toList) :=
  ⟨by decide,
   ((remove_deletes_rows env0 "a.b".toList []
      { State.initial db1 with hide_set := [("a.b".toList, "a.b".toList)] }).1 (by decide)).1,
   (((remove_deletes_rows env0 "a.b".toList []
      { State.initial db1 with hide_set := [("a.b".toList, "a.b".toList)] }).1
        (by decide)).2.2 (by decide)).2.1 rfl⟩


/-! ## Failed additions -/

/-- C5: when `add_list` returns a code other than `DAEMON_SUCCESS`, `hide_set`,
`uid_proc_map` and the list of killed pids are as before the call, and one of
three cases holds: it returns `HIDE_INVALID_PKG`, `validate` rejected the pair
and the whole state, store and log included, is untouched; it returns
`HIDE_ITEM_EXIST`, the pair was in `hide_set` and the whole state is untouched;
or it returns `DAEMON_ERROR`, the INSERT failed, and only the log of the store
has grown by that statement. The command `add_list(int client)` then returns
the same code and state. An empty `proc` stands for `pkg`. -/
theorem failed_add_atomic (cfg : Config) (env : Env) (pkg proc : Name) (s : State)
    (r : Code × State) (hr : add_list cfg env pkg proc s = some r)
    (h : r.1 ≠ Code.DAEMON_SUCCESS) :
    r.2.hide_set = s.hide_set ∧
    r.2.uid_proc_map = s.uid_proc_map ∧
    r.2.killed = s.killed ∧
    r.2.db.hidelist = s.db.hidelist ∧
    add_list_client cfg env pkg proc s = some r ∧
    ((r.1 = Code.HIDE_INVALID_PKG ∧
        validate cfg pkg (if proc = [] then pkg else proc) = false ∧
        r.2 = s) ∨
      (r.1 = Code.HIDE_ITEM_EXIST ∧
        (pkg, (if proc = [] then pkg else proc)) ∈ s.hide_set ∧
        r.2 = s) ∨
      (r.1 = Code.DAEMON_ERROR ∧
        env.db_ok = false ∧
        r.2 = { s with db := { s.db with
          log := s.db.log ++ [sql_insert pkg (if proc = [] then pkg else proc)] } })) := by
  have hcl : add_list_client cfg env pkg proc s = some r := by
    rw [add_list_client_some]
    exact ⟨r, hr, by rw [if_neg h]⟩
  refine ⟨?_, ?_, ?_, ?_, hcl, ?_⟩
  all_goals
    by_cases hv : validate cfg pkg (if proc = [] then pkg else proc) = true
    · by_cases hn : (pkg, (if proc = [] then pkg else proc)) ∈ s.hide_set
      · rw [add_list_exist cfg env pkg proc s hv hn, Option.some.injEq] at hr
        subst hr
        try exact Or.inr (Or.inl ⟨rfl, hn, rfl⟩)
        try rfl
      · cases hdb : env.db_ok
        · rw [add_list_db_fail cfg env pkg proc s hv hn hdb, Option.some.injEq] at hr
          subst hr
          try exact Or.inr (Or.inr ⟨rfl, rfl, rfl⟩)
          try rfl
        · rw [add_list_success cfg env pkg proc s hv hn hdb, Option.map_eq_some'] at hr
          obtain ⟨t, _, ht⟩ := hr
          subst ht
          exact absurd rfl h
    · have hvf : validate cfg pkg (if proc = [] then pkg else proc) = false := by
        simpa using hv
      rw [add_list_invalid cfg env pkg proc s hvf, Option.some.injEq] at hr
      subst hr
      try exact Or.inl ⟨rfl, hvf, rfl⟩
      try rfl

/-- Witness for C5: `badname` has no dot, so the add is refused. -/
theorem failed_add_atomic_witness :
    add_list cfg0 env0 "badname".toList [] (State.initial db0)
      = some (Code.HIDE_INVALID_PKG, State.initial db0) ∧
    Code.HIDE_INVALID_PKG ≠ Code.DAEMON_SUCCESS ∧
    add_list_client cfg0 env0 "badname".toList [] (State.initial db0)
      = some (Code.HIDE_INVALID_PKG, State.initial db0) :=
  ⟨rfl, by decide,
   (failed_add_atomic cfg0 env0 "badname".toList [] (State.initial db0)
      (Code.HIDE_INVALID_PKG, State.initial db0) rfl (by decide)).2.2.2.2.1⟩

/-! ## Validation -/

theorem validate_pkg_iff (pkg : Name) :
    ∀ b : Bool, validate_pkg pkg b = true ↔
      (∀ c ∈ pkg, c.isAlphanum = true ∨ c = '_' ∨ c = '.') ∧ (b = true ∨ '.' ∈ pkg) := by
  induction pkg with
  | nil => intro b; simp [validate_pkg]
  | cons c rest ih =>
    intro b
    unfold validate_pkg
    by_cases h1 : (c.isAlphanum || c == '_') = true
    · rw [if_pos h1, ih b]
      have hne : c ≠ '.' := by
        rintro rfl
        revert h1
        decide
      have h1' : c.isAlphanum = true ∨ c = '_' := by simpa using h1
      simp only [List.mem_cons, forall_eq_or_imp]
      constructor
      · rintro ⟨ha, hb⟩
        refine ⟨⟨?_, ha⟩, ?_⟩
        · rcases h1' with h | h
          · exact Or.inl h
          · exact Or.inr (Or.inl h)
        · rcases hb with hb | hb
          · exact Or.inl hb
          · exact Or.inr (Or.inr hb)
      · rintro ⟨⟨_, ha⟩, hb⟩
        refine ⟨ha, ?_⟩
        rcases hb with hb | hb | hb
        · exact Or.inl hb
        · exact absurd hb.symm hne
        · exact Or.inr hb
    · rw [if_neg h1]
      have h1' : ¬ c.isAlphanum = true ∧ ¬ c = '_' := by simpa using h1
      by_cases h2 : (c == '.') = true
      · rw [if_pos h2, ih true]
        have hc : c = '.' := by simpa using h2
        rw [List.forall_mem_cons]
        constructor
        · rintro ⟨ha, _⟩
          exact ⟨⟨Or.inr (Or.inr hc), ha⟩, Or.inr (List.mem_cons.2 (Or.inl hc.symm))⟩
        · rintro ⟨⟨_, ha⟩, _⟩
          exact ⟨ha, Or.inl rfl⟩
      · rw [if_neg h2]
        have hc : ¬ c = '.' := by simpa using h2
        simp only [List.mem_cons, forall_eq_or_imp]
        constructor
        · intro h; cases h
        · rintro ⟨⟨h, _⟩, _⟩
          rcases h with h | h | h
          · exact absurd h h1'.1
          · exact absurd h h1'.2
          · exact absurd h hc

theorem validate_proc_iff (proc : Name) :
    validate_proc proc = true ↔
      ∀ c ∈ proc, c.isAlphanum = true ∨ c = '_' ∨ c = ':' ∨ c = '.' := by
  induction proc with
  | nil => simp [validate_proc]
  | cons c rest ih =>
    unfold validate_proc
    by_cases h1 : (c.isAlphanum || c == '_' || c == ':' || c == '.') = true
    · rw [if_pos h1, ih]
      have h1' : c.isAlphanum = true ∨ c = '_' ∨ c = ':' ∨ c = '.' := by
        simpa [or_assoc] using h1
      simp only [List.mem_cons, forall_eq_or_imp]
      exact ⟨fun h => ⟨h1', h⟩, fun h => h.2⟩
    · rw [if_neg h1]
      have h1' : ¬ (c.isAlphanum = true ∨ c = '_' ∨ c = ':' ∨ c = '.') := by
        simpa [or_assoc] using h1
      simp only [List.mem_cons, forall_eq_or_imp]
      constructor
      · intro h; cases h
      · rintro ⟨h, _⟩
        exact absurd h h1'

theorem validate_isolated_proc_iff (proc : Name) :
    validate_isolated_proc proc = true ↔
      ∀ c ∈ proc.takeWhile (fun c => c != ':'), c.isAlphanum = true ∨ c = '_' ∨ c = '.' := by
  induction proc with
  | nil => simp [validate_isolated_proc]
  | cons c rest ih =>
    unfold validate_isolated_proc
    by_cases h1 : (c.isAlphanum || c == '_' || c == '.') = true
    · rw [if_pos h1, ih]
      have hne : (c != ':') = true := by
        by_cases hc : c = ':'
        · subst hc
          revert h1
          decide
        · simpa using hc
      have h1' : c.isAlphanum = true ∨ c = '_' ∨ c = '.' := by
        simpa [or_assoc] using h1
      have htw : List.takeWhile (fun c => c != ':') (c :: rest)
          = c :: List.takeWhile (fun c => c != ':') rest := by
        simp [List.takeWhile_cons, hne]
      rw [htw, List.forall_mem_cons]
      exact ⟨fun h => ⟨h1', h⟩, fun h => h.2⟩
    · rw [if_neg h1]
      have h1' : ¬ (c.isAlphanum = true ∨ c = '_' ∨ c = '.') := by
        simpa [or_assoc] using h1
      by_cases h2 : (c == ':') = true
      · rw [if_pos h2]
        have hc : c = ':' := by simpa using h2
        subst hc
        simp
      · rw [if_neg h2]
        have hne : (c != ':') = true := by simpa using h2
        have htw : List.takeWhile (fun c => c != ':') (c :: rest)
            = c :: List.takeWhile (fun c => c != ':') rest := by
          simp [List.takeWhile_cons, hne]
        rw [htw, List.forall_mem_cons]
        constructor
        · intro h; cases h
        · rintro ⟨h, _⟩
          exact absurd h h1'

theorem validate_ordinary (cfg : Config) (pkg proc : Name) (hp : pkg ≠ cfg.ISOLATED_MAGIC) :
    validate cfg pkg proc = true ↔
      ((∀ c ∈ pkg, c.isAlphanum = true ∨ c = '_' ∨ c = '.') ∧ '.' ∈ pkg) ∧
      (∀ c ∈ proc, c.isAlphanum = true ∨ c = '_' ∨ c = ':' ∨ c = '.') := by
  have hne : str_eql pkg cfg.ISOLATED_MAGIC = false := by
    simpa [str_eql] using hp
  unfold validate
  rw [hne]
  simp only [Bool.false_eq_true, if_false, Bool.and_eq_true, validate_pkg_iff, validate_proc_iff,
    false_or]

theorem validate_isolated (cfg : Config) (proc : Name) :
    validate cfg cfg.ISOLATED_MAGIC proc = true ↔
      ∀ c ∈ proc.takeWhile (fun c => c != ':'), c.isAlphanum = true ∨ c = '_' ∨ c = '.' := by
  have he : str_eql cfg.ISOLATED_MAGIC cfg.ISOLATED_MAGIC = true := by simp [str_eql]
  unfold validate
  rw [he]
  simp only [if_true, Bool.true_and, validate_isolated_proc_iff]

theorem spec_pkg_grammar_from_sound (pkg : Name) :
    ∀ seen_dot in_segment : Bool, spec_pkg_grammar_from seen_dot in_segment pkg = true →
      (∀ c ∈ pkg, c.isAlphanum = true ∨ c = '_' ∨ c = '.') ∧ (seen_dot = true ∨ '.' ∈ pkg) := by
  induction pkg with
  | nil =>
    intro sd sg h
    simp only [spec_pkg_grammar_from, Bool.and_eq_true] at h
    exact ⟨by simp, Or.inl h.1⟩
  | cons c rest ih =>
    intro sd sg h
    unfold spec_pkg_grammar_from at h
    by_cases h1 : (c.isAlphanum || c == '_') = true
    · rw [if_pos h1] at h
      have h1' : c.isAlphanum = true ∨ c = '_' := by simpa using h1
      obtain ⟨ha, hb⟩ := ih sd true h
      refine ⟨?_, ?_⟩
      · intro d hd
        rcases List.mem_cons.1 hd with rfl | hd
        · rcases h1' with h | h
          · exact Or.inl h
          · exact Or.inr (Or.inl h)
        · exact ha d hd
      · rcases hb with hb | hb
        · exact Or.inl hb
        · exact Or.inr (List.mem_cons_of_mem _ hb)
    · rw [if_neg h1] at h
      by_cases h2 : (c == '.') = true
      · rw [if_pos h2] at h
        have hc : c = '.' := by simpa using h2
        simp only [Bool.and_eq_true] at h
        obtain ⟨ha, _⟩ := ih true false h.2
        refine ⟨?_, Or.inr (by simp [hc])⟩
        intro d hd
        rcases List.mem_cons.1 hd with rfl | hd
        · exact Or.inr (Or.inr hc)
        · exact ha d hd
      · rw [if_neg h2] at h
        cases h

/-- C6 (counterexample): the owner `a..b` has an empty segment, so it is not of
the form the specification words, yet `validate` accepts it and `add_list`,
called after an enable, returns `DAEMON_SUCCESS` for it; `com.example.app` is
of that form and `badname` is not. -/
theorem validate_accepts_empty_segment :
    spec_pkg_grammar "a..b".toList = false ∧
    "a..b".toList ≠ cfg0.ISOLATED_MAGIC ∧
    validate cfg0 "a..b".toList "x".toList = true ∧
    (add_list cfg0 env0 "a..b".toList [] st_on).map (fun r => r.1)
      = some Code.DAEMON_SUCCESS ∧
    spec_pkg_grammar "com.example.app".toList = true ∧
    spec_pkg_grammar "badname".toList = false :=
  ⟨by decide, by decide, by decide, by decide, by decide, by decide⟩

/-- C6 (amended): for an owner other than `ISOLATED_MAGIC`, `validate` accepts
the pair if and only if the owner consists of alphanumeric characters,
underscores and dots and has at least one dot, and the process name consists of
alphanumeric characters, underscores, colons and dots. Every owner of the
segment form worded by the specification is of that kind. For an owner that is
not of that kind `add_list` returns `HIDE_INVALID_PKG` and leaves the state as
it is. -/
theorem validate_owner (cfg : Config) (pkg : Name) (hp : pkg ≠ cfg.ISOLATED_MAGIC) :
    (∀ proc : Name, validate cfg pkg proc = true ↔
      ((∀ c ∈ pkg, c.isAlphanum = true ∨ c = '_' ∨ c = '.') ∧ '.' ∈ pkg) ∧
      (∀ c ∈ proc, c.isAlphanum = true ∨ c = '_' ∨ c = ':' ∨ c = '.')) ∧
    (spec_pkg_grammar pkg = true →
      (∀ c ∈ pkg, c.isAlphanum = true ∨ c = '_' ∨ c = '.') ∧ '.' ∈ pkg) ∧
    (¬ ((∀ c ∈ pkg, c.isAlphanum = true ∨ c = '_' ∨ c = '.') ∧ '.' ∈ pkg) →
      ∀ (env : Env) (proc : Name) (s : State),
        add_list cfg env pkg proc s = some (Code.HIDE_INVALID_PKG, s)) := by
  refine ⟨fun proc => validate_ordinary cfg pkg proc hp, ?_, ?_⟩
  · intro h
    have := spec_pkg_grammar_from_sound pkg false false h
    simpa using this
  · intro hbad env proc s
    rw [add_list_invalid cfg env pkg proc s]
    rw [← Bool.not_eq_true, validate_ordinary cfg pkg _ hp]
    exact fun h => hbad h.1

/-- Witness for C6: `badname` is not the isolated package and `add_list`
refuses it; `com.example.app` with process `com.example.app:remote` is accepted. -/
theorem validate_owner_witness :
    "badname".toList ≠ cfg0.ISOLATED_MAGIC ∧
    add_list cfg0 env0 "badname".toList [] (State.initial db0)
      = some (Code.HIDE_INVALID_PKG, State.initial db0) ∧
    validate cfg0 "com.example.app".toList "com.example.app:remote".toList = true :=
  ⟨by decide,
   (validate_owner cfg0 "badname".toList (by decide)).2.2 (by decide) env0 [] (State.initial db0),
   by decide⟩

/-- C7 (counterexample): with `ISOLATED_MAGIC` as owner, `validate` accepts the
process name `proc:1!23`, which holds the character `!`, and the process name
`p:` followed by a quote; `add_list`, called after an enable, then returns
`DAEMON_SUCCESS` and the quote stands in the text of its INSERT statement, the
last of the log. -/
theorem validate_accepts_after_colon :
    validate cfg0 cfg0.ISOLATED_MAGIC "proc:1!23".toList = true ∧
    '!' ∈ "proc:1!23".toList ∧
    validate cfg0 cfg0.ISOLATED_MAGIC ['p', ':', quote] = true ∧
    (add_list cfg0 env0 cfg0.ISOLATED_MAGIC ['p', ':', quote] st_on).map (fun r => r.1)
      = some Code.DAEMON_SUCCESS ∧
    (add_list cfg0 env0 cfg0.ISOLATED_MAGIC ['p', ':', quote] st_on).map
        (fun r => r.2.db.log)
      = some (st_on.db.log ++
          ["INSERT INTO hidelist (package_name, process) VALUES('isolated', 'p:'')".toList]) :=
  ⟨by decide, by decide, by decide, by decide, by decide⟩

/-- C7 (amended): a pair that `validate` accepts with an owner other than
`ISOLATED_MAGIC` has only alphanumeric characters, underscores and dots in the
owner and only those and colons in the process name, hence a quote in neither.
With `ISOLATED_MAGIC` as owner, `validate` accepts exactly the process names
whose part before the first colon has only alphanumeric characters,
underscores and dots: `proc!123` is rejected and `proc:123` is accepted. -/
theorem validate_alphabet (cfg : Config) (pkg proc : Name) :
    (pkg ≠ cfg.ISOLATED_MAGIC → validate cfg pkg proc = true →
      (∀ c ∈ pkg, c.isAlphanum = true ∨ c = '_' ∨ c = '.') ∧
      (∀ c ∈ proc, c.isAlphanum = true ∨ c = '_' ∨ c = ':' ∨ c = '.') ∧
      quote ∉ pkg ∧ quote ∉ proc) ∧
    (validate cfg cfg.ISOLATED_MAGIC proc = true ↔
      ∀ c ∈ proc.takeWhile (fun c => c != ':'), c.isAlphanum = true ∨ c = '_' ∨ c = '.') ∧
    validate cfg cfg.ISOLATED_MAGIC "proc!123".toList = false ∧
    validate cfg cfg.ISOLATED_MAGIC "proc:123".toList = true := by
  refine ⟨?_, validate_isolated cfg proc, ?_, ?_⟩
  · intro hp hv
    obtain ⟨⟨h1, _⟩, h2⟩ := (validate_ordinary cfg pkg proc hp).1 hv
    refine ⟨h1, h2, ?_, ?_⟩
    · intro hq
      have := h1 quote hq
      revert this
      decide
    · intro hq
      have := h2 quote hq
      revert this
      decide
  · rw [← Bool.not_eq_true, validate_isolated]
    decide
  · rw [validate_isolated]
    decide

/-- Witness for C7: the pair `com.example.app`, `com.example.app:remote`. -/
theorem validate_alphabet_witness :
    "com.example.app".toList ≠ cfg0.ISOLATED_MAGIC ∧
    validate cfg0 "com.example.app".toList "com.example.app:remote".toList = true ∧
    quote ∉ "com.example.app:remote".toList :=
  ⟨by decide, by decide,
   ((validate_alphabet cfg0 "com.example.app".toList "com.example.app:remote".toList).1
      (by decide) (by decide)).2.2.2⟩


/-! ## Query -/

theorem exists_mem_cons_iff {α : Type} (p : α → Prop) (a : α) (l : List α) :
    (∃ x ∈ a :: l, p x) ↔ p a ∨ ∃ x ∈ l, p x := by
  simp

theorem isolated_match_iff (process : Name) (max_len : Int) (names : List Name) :
    isolated_match process max_len names = true ↔
      ∃ s ∈ names, str_starts process s = true ∨
        (to_size_t max_len < s.length ∧ to_size_t max_len < process.length ∧
          str_starts s process = true) := by
  induction names with
  | nil => simp [isolated_match]
  | cons s rest ih =>
    unfold isolated_match
    rw [exists_mem_cons_iff]
    by_cases h1 : to_size_t max_len < s.length ∧ to_size_t max_len < process.length ∧
        str_starts s process = true
    · rw [if_pos h1]
      exact ⟨fun _ => Or.inl (Or.inr h1), fun _ => rfl⟩
    · rw [if_neg h1]
      by_cases h2 : str_starts process s = true
      · rw [if_pos h2]
        exact ⟨fun _ => Or.inl (Or.inl h2), fun _ => rfl⟩
      · rw [if_neg h2, ih]
        constructor
        · intro h; exact Or.inr h
        · rintro (h | h)
          · rcases h with h | h
            · exact absurd h h2
            · exact absurd h h1
          · exact h

theorem app_match_iff (process : Name) (max_len : Int) (names : List Name) :
    app_match process max_len names = true ↔
      ∃ s ∈ names, s = process ∨
        (to_size_t max_len < s.length ∧ to_size_t max_len < process.length ∧
          str_starts s process = true) := by
  induction names with
  | nil => simp [app_match]
  | cons s rest ih =>
    unfold app_match
    rw [exists_mem_cons_iff]
    by_cases h1 : to_size_t max_len < s.length ∧ to_size_t max_len < process.length ∧
        str_starts s process = true
    · rw [if_pos h1]
      exact ⟨fun _ => Or.inl (Or.inr h1), fun _ => rfl⟩
    · rw [if_neg h1]
      by_cases h2 : (s == process) = true
      · rw [if_pos h2]
        exact ⟨fun _ => Or.inl (Or.inl (by simpa using h2)), fun _ => rfl⟩
      · rw [if_neg h2, ih]
        constructor
        · intro h; exact Or.inr h
        · rintro (h | h)
          · rcases h with h | h
            · exact absurd (by simpa using h) h2
            · exact absurd h h1
          · exact h

theorem to_size_t_le (n : Int) (h : 0 ≤ n) : to_size_t n ≤ n.toNat := by
  unfold to_size_t
  norm_num
  omega

theorem to_size_t_eq (n : Int) (h0 : 0 ≤ n) (h1 : n < 2 ^ 31) : to_size_t n = n.toNat := by
  unfold to_size_t
  norm_num at h1 ⊢
  omega

theorem to_size_t_lt_iff (n : Int) (k : Nat) (h0 : 0 ≤ n) (h1 : n < 2 ^ 31) :
    to_size_t n < k ↔ n < (k : Int) := by
  rw [to_size_t_eq n h0 h1]
  omega

/-- C8 (counterexample): after enabling and adding the isolated name
`proc_abc`, a process of uid 99000 observed as `proc_abc123` is a target, but
one observed as `proc`, a prefix of the stored name, is not a target for
`max_len` 10. -/
theorem isolated_short_prefix_no_match :
    90000 ≤ to_app_id 99000 ∧
    map_find st_sample.uid_proc_map (-1) = some ["proc_abc".toList] ∧
    is_hide_target st_sample 99000 "proc_abc123".toList 10 = true ∧
    str_starts "proc_abc".toList "proc".toList = true ∧
    is_hide_target st_sample 99000 "proc".toList 10 = false := by
  decide

/-- C8 (amended): for a uid whose app id is at least 90000 and the names stored
under the key -1, `is_hide_target` returns true exactly when some stored name
`s` is a prefix of the observed name, or has the observed name as a prefix
while both are longer than `max_len` taken as a `size_t`. So it returns true
whenever the observed name starts with a stored name, for every `max_len`; and
when the observed name is a prefix of a stored name it returns true provided
`max_len` is not negative and both names are longer than `max_len`. When no
name is stored under the key -1 it returns false. -/
theorem isolated_target (st : State) (uid : Int) (process : Name) (max_len : Int)
    (hid : 90000 ≤ to_app_id uid) :
    (∀ names : List Name, map_find st.uid_proc_map (-1) = some names →
      (is_hide_target st uid process max_len = true ↔
        ∃ s ∈ names, str_starts process s = true ∨
          (to_size_t max_len < s.length ∧ to_size_t max_len < process.length ∧
            str_starts s process = true)) ∧
      (∀ s ∈ names, str_starts process s = true →
        is_hide_target st uid process max_len = true) ∧
      (∀ s ∈ names, str_starts s process = true → 0 ≤ max_len →
        max_len < (s.length : Int) → max_len < (process.length : Int) →
        is_hide_target st uid process max_len = true)) ∧
    (map_find st.uid_proc_map (-1) = none →
      is_hide_target st uid process max_len = false) := by
  refine ⟨?_, ?_⟩
  swap
  · intro hm
    unfold is_hide_target
    simp only [hid, if_true, hm]
  intro names hm
  have hiff : is_hide_target st uid process max_len = true ↔
      ∃ s ∈ names, str_starts process s = true ∨
        (to_size_t max_len < s.length ∧ to_size_t max_len < process.length ∧
          str_starts s process = true) := by
    unfold is_hide_target
    simp only [hid, if_true, hm]
    exact isolated_match_iff process max_len names
  refine ⟨hiff, ?_, ?_⟩
  · intro s hs h
    exact hiff.2 ⟨s, hs, Or.inl h⟩
  · intro s hs h h0 h1 h2
    have hle := to_size_t_le max_len h0
    exact hiff.2 ⟨s, hs, Or.inr ⟨by omega, by omega, h⟩⟩

/-- Witness for C8: the stored name `proc_abc` and the observed name
`proc_abc123`. -/
theorem isolated_target_witness :
    90000 ≤ to_app_id 99000 ∧
    map_find st_sample.uid_proc_map (-1) = some ["proc_abc".toList] ∧
    is_hide_target st_sample 99000 "proc_abc123".toList 1024 = true :=
  ⟨by decide, by decide,
   ((isolated_target st_sample 99000 "proc_abc123".toList 1024 (by decide)).1
      ["proc_abc".toList] (by decide)).2.1 "proc_abc".toList (by decide) (by decide)⟩

/-- C9 (counterexample): with `abcd` stored for app id 10010 and `max_len` -1,
the stored name and the observed name `ab` are both longer than `max_len` and
the stored name starts with the observed one, yet `is_hide_target` returns
false: the comparison converts -1 to the largest `size_t`. And the uid -1 has
the app id -1, below 90000, which is the key of the isolated names: the name
`proc_abc` stored there makes a process of uid -1 a target. -/
theorem app_negative_len_no_match :
    to_app_id 10010 < 90000 ∧
    map_find st_sample.uid_proc_map (to_app_id 10010)
      = some ["abcd".toList, SNET_PROC] ∧
    (-1 : Int) < ("abcd".toList.length : Int) ∧
    (-1 : Int) < ("ab".toList.length : Int) ∧
    str_starts "abcd".toList "ab".toList = true ∧
    is_hide_target st_sample 10010 "ab".toList (-1) = false ∧
    to_app_id (-1) < 90000 ∧
    map_find st_sample.uid_proc_map (-1) = some ["proc_abc".toList] ∧
    is_hide_target st_sample (-1) "proc_abc".toList 1024 = true := by
  decide

/-- C9 (amended): for a uid whose app id is below 90000 and an `int` `max_len`
that is not negative, `is_hide_target` returns true if and only if
`uid_proc_map` has an entry for that app id and some name `s` in it equals the
observed name, or is longer than `max_len`, with the observed name also longer
than `max_len`, and starts with the observed name. It returns false when the
app id has no entry, and its result depends on the entry of that app id only;
for a uid that is not negative the key -1 is another key. -/
theorem app_target (st : State) (uid : Int) (process : Name) (max_len : Int)
    (hid : to_app_id uid < 90000) (h0 : 0 ≤ max_len) (h1 : max_len < 2 ^ 31) :
    (is_hide_target st uid process max_len = true ↔
      ∃ names, map_find st.uid_proc_map (to_app_id uid) = some names ∧
        ∃ s ∈ names, s = process ∨
          (max_len < (s.length : Int) ∧ max_len < (process.length : Int) ∧
            str_starts s process = true)) ∧
    (map_find st.uid_proc_map (to_app_id uid) = none →
      is_hide_target st uid process max_len = false) ∧
    (∀ st2 : State,
      map_find st2.uid_proc_map (to_app_id uid) = map_find st.uid_proc_map (to_app_id uid) →
      is_hide_target st2 uid process max_len = is_hide_target st uid process max_len) ∧
    (0 ≤ uid → to_app_id uid ≠ -1) := by
  have hnot : ¬ (90000 ≤ to_app_id uid) := by omega
  have hval : ∀ st2 : State, is_hide_target st2 uid process max_len =
      match map_find st2.uid_proc_map (to_app_id uid) with
      | none => false
      | some names => app_match process max_len names := by
    intro st2
    unfold is_hide_target
    simp only [hnot, if_false]
  refine ⟨?_, ?_, ?_, ?_⟩
  · rw [hval st]
    cases hm : map_find st.uid_proc_map (to_app_id uid) with
    | none => simp
    | some names =>
      simp only [app_match_iff, to_size_t_lt_iff max_len _ h0 h1, Option.some.injEq,
        exists_eq_left']
  · intro hm
    rw [hval st, hm]
  · intro st2 hm
    rw [hval st2, hval st, hm]
  · intro hu
    unfold to_app_id
    have := Int.tmod_nonneg 100000 hu
    omega

/-- Witness for C9: `abcd` is stored for app id 10010 and observed as such. -/
theorem app_target_witness :
    to_app_id 10010 < 90000 ∧ (0 : Int) ≤ 1024 ∧ (1024 : Int) < 2 ^ 31 ∧
    is_hide_target st_sample 10010 "abcd".toList 1024 = true :=
  ⟨by decide, by decide, by decide,
   (app_target st_sample 10010 "abcd".toList 1024 (by decide) (by decide) (by decide)).1.2
     ⟨["abcd".toList, SNET_PROC], by decide, "abcd".toList, by decide, Or.inl rfl⟩⟩


/-! ## Enable, then disable -/

/-- C10: from a state with `hide_state` false, a `launch_magiskhide` that
returns `DAEMON_SUCCESS` followed by `stop_magiskhide` gives an empty
`uid_proc_map`, an empty `hide_set` and a false `hide_state`; a second
`stop_magiskhide` returns `DAEMON_SUCCESS` and does nothing but run
`update_hide_config` again, which adds the REPLACE statement with value 0 to
the log of the store and leaves every variable of the file as it is. -/
theorem enable_disable_round_trip (cfg : Config) (env1 env2 env3 : Env) (late_props : Bool)
    (s s1 : State) (_hs : s.hide_state = false)
    (he : launch_magiskhide cfg env1 late_props s = some (Code.DAEMON_SUCCESS, s1)) :
    (stop_magiskhide cfg env2 s1).1 = Code.DAEMON_SUCCESS ∧
    (stop_magiskhide cfg env2 s1).2.uid_proc_map = [] ∧
    (stop_magiskhide cfg env2 s1).2.hide_set = [] ∧
    (stop_magiskhide cfg env2 s1).2.hide_state = false ∧
    stop_magiskhide cfg env3 (stop_magiskhide cfg env2 s1).2
      = (Code.DAEMON_SUCCESS,
         { (stop_magiskhide cfg env2 s1).2 with
           db := { (stop_magiskhide cfg env2 s1).2.db with
             hide_config :=
               if env3.config_ok then false
               else (stop_magiskhide cfg env2 s1).2.db.hide_config,
             log := (stop_magiskhide cfg env2 s1).2.db.log ++
               [sql_replace_config cfg.HIDE_CONFIG_KEY false] } }) := by
  have hon : s1.hide_state = true :=
    ((launch_magiskhide_spec cfg env1 late_props s _ he).2.2.2 rfl).2.1
  obtain ⟨h1, h2, h3⟩ := stop_magiskhide_fields cfg env2 s1
  obtain ⟨h4, h5, _, _⟩ := h3 hon
  refine ⟨h1, h5, h4, h2, ?_⟩
  rw [stop_magiskhide_eq cfg env3 _ h2, update_hide_config_of_disabled cfg env3 _ h2]

/-- Witness for C10: enabling from the initial state over an empty store. -/
theorem enable_disable_round_trip_witness :
    (State.initial db0).hide_state = false ∧
    launch_magiskhide cfg0 env0 false (State.initial db0)
      = some (Code.DAEMON_SUCCESS, st_on) ∧
    (stop_magiskhide cfg0 env0 st_on).2.hide_set = [] :=
  ⟨by decide, rfl,
   (enable_disable_round_trip cfg0 env0 env0 env0 false (State.initial db0) st_on
      (by decide) rfl).2.2.1⟩

/-! ## Refused enable -/

/-- C11: an enable attempt that is refused leaves the state as it was. When
`hide_state` is true `launch_magiskhide` returns `HIDE_IS_ENABLED`; otherwise,
when the namespace probe fails it returns `HIDE_NO_NS`; otherwise, when `procfp`
is null and `/proc` cannot be opened it returns `DAEMON_ERROR`; in each case the
returned state, with `hide_state`, `hide_set`, `uid_proc_map`, the store, the
kill list and the monitor flag, equals the state before the call. -/
theorem refused_enable_unchanged (cfg : Config) (env : Env) (late_props : Bool) (s : State) :
    (s.hide_state = true →
      launch_magiskhide cfg env late_props s = some (Code.HIDE_IS_ENABLED, s)) ∧
    (s.hide_state = false → env.ns_ok = false →
      launch_magiskhide cfg env late_props s = some (Code.HIDE_NO_NS, s)) ∧
    (s.hide_state = false → env.ns_ok = true → s.procfp = false → env.opendir_ok = false →
      launch_magiskhide cfg env late_props s = some (Code.DAEMON_ERROR, s)) := by
  refine ⟨?_, ?_, ?_⟩
  · intro h
    simp [launch_magiskhide, h]
  · intro h1 h2
    simp [launch_magiskhide, h1, h2]
  · intro h1 h2 h3 h4
    simp [launch_magiskhide, h1, h2, h3, h4]

/-- Witness for C11: a second enable after a successful one, an enable without
namespace support, and an enable when `/proc` cannot be opened. -/
theorem refused_enable_unchanged_witness :
    st_on.hide_state = true ∧
    launch_magiskhide cfg0 env0 false st_on = some (Code.HIDE_IS_ENABLED, st_on) ∧
    launch_magiskhide cfg0 { env0 with ns_ok := false } false (State.initial db1)
      = some (Code.HIDE_NO_NS, State.initial db1) ∧
    launch_magiskhide cfg0 { env0 with opendir_ok := false } false (State.initial db1)
      = some (Code.DAEMON_ERROR, State.initial db1) :=
  ⟨by decide,
   (refused_enable_unchanged cfg0 env0 false st_on).1 (by decide),
   (refused_enable_unchanged cfg0 { env0 with ns_ok := false } false
      (State.initial db1)).2.1 rfl rfl,
   (refused_enable_unchanged cfg0 { env0 with opendir_ok := false } false
      (State.initial db1)).2.2 rfl rfl rfl rfl⟩

/-! ## Rebuild of the index -/

/-- The index that `update_uid_map` builds from a single entry of an ordinary,
non-empty package. -/
theorem uid_map_loop_single (cfg : Config) (env : Env) (users : List Name) (pkg proc : Name)
    (st_uid : Nat) (hp : pkg ≠ cfg.ISOLATED_MAGIC) (he : pkg ≠ []) :
    uid_map_loop cfg env users [(pkg, proc)] [] st_uid [] =
      match stat_users cfg env pkg users with
      | some uid => [(to_app_id (Int.ofNat uid), [proc])]
      | none => [] := by
  have he2 : ¬ (([] : Name) = pkg) := fun h => he h.symm
  unfold uid_map_loop
  simp only [hp, he2, if_false]
  cases stat_users cfg env pkg users with
  | none => simp [uid_map_loop]
  | some uid => simp [uid_map_loop, map_append]

/-- C13 (counterexample): with `com.a` owned by uid 10010 under user 0 and by uid
10110 under user 10 and the single entry `(com.a, p1)`, the rebuilt index is
the one entry for app id 10010; the app id of uid 10110 has no entry. -/
theorem rebuild_one_user_only :
    (update_uid_map cfg0 env_two_users
      { State.initial db0 with hide_set := [("com.a".toList, "p1".toList)] }).uid_proc_map
      = [(10010, ["p1".toList])] ∧
    to_app_id 10110 = 10110 ∧
    map_find (update_uid_map cfg0 env_two_users
      { State.initial db0 with hide_set := [("com.a".toList, "p1".toList)] }).uid_proc_map
      (to_app_id 10110) = none := by
  decide

/-- C13 (amended): for a registry that holds one entry of an ordinary package,
the rebuilt index has a single entry, keyed by the app id of the uid that owns
the package directory under the first user, in listing order, where `stat`
finds it, and that entry maps to the process of the registry entry; uids under
later users add no entry, and when no user has the directory the index is
empty. -/
theorem rebuild_single_entry (cfg : Config) (env : Env) (users : List Name) (pkg proc : Name)
    (s : State) (hz : cfg.zygisk_enabled = true) (hu : env.users = some users)
    (hs : s.hide_set = [(pkg, proc)]) (hp : pkg ≠ cfg.ISOLATED_MAGIC) (he : pkg ≠ []) :
    (update_uid_map cfg env s).uid_proc_map =
      match stat_users cfg env pkg users with
      | some uid => [(to_app_id (Int.ofNat uid), [proc])]
      | none => [] := by
  unfold update_uid_map
  simp only [hz, hu, hs, Bool.not_true, Bool.false_eq_true, if_false]
  exact uid_map_loop_single cfg env users pkg proc env.st_uid0 hp he

/-- Witness for C13: the two user directories of the example; user 0 is listed
first, so the entry is keyed by the app id of uid 10010. -/
theorem rebuild_single_entry_witness :
    cfg0.zygisk_enabled = true ∧
    stat_users cfg0 env_two_users "com.a".toList ["0".toList, "10".toList] = some 10010 ∧
    (update_uid_map cfg0 env_two_users
      { State.initial db0 with hide_set := [("com.a".toList, "p1".toList)] }).uid_proc_map
      = [(10010, ["p1".toList])] :=
  ⟨rfl, by decide,
   (rebuild_single_entry cfg0 env_two_users ["0".toList, "10".toList] "com.a".toList
      "p1".toList { State.initial db0 with hide_set := [("com.a".toList, "p1".toList)] }
      rfl rfl rfl (by decide) (by decide)).trans (by decide)⟩

/-- The loop of `update_uid_map` and the rebuild without the shortcut build the
same index when no entry has an empty package name, provided the variables
`prev_pkg` and `st.st_uid` are as the loop leaves them: `prev_pkg` is empty or
names a package whose directory `stat` found with owner `st_uid`. -/
theorem uid_map_loop_eq_rebuild (cfg : Config) (env : Env) (users : List Name)
    (l : List HideEntry) :
    (∀ e ∈ l, e.1 ≠ []) →
    ∀ (prev_pkg : Name) (st_uid : Nat) (m : List (Int × List Name)),
      (prev_pkg = [] ∨ stat_users cfg env prev_pkg users = some st_uid) →
      uid_map_loop cfg env users l prev_pkg st_uid m = rebuild_no_shortcut cfg env users l m := by
  induction l with
  | nil => intro _ prev st m _; rfl
  | cons hide rest ih =>
    intro hne prev st m hinv
    have hrest : ∀ e ∈ rest, e.1 ≠ [] := fun e he => hne e (List.mem_cons_of_mem _ he)
    have hh : hide.1 ≠ [] := hne hide (List.mem_cons_self _ _)
    unfold uid_map_loop rebuild_no_shortcut
    by_cases h1 : hide.1 = cfg.ISOLATED_MAGIC
    · simp only [h1, if_true]
      exact ih hrest prev st _ hinv
    · simp only [h1, if_false]
      by_cases h2 : prev = hide.1
      · have hst : stat_users cfg env hide.1 users = some st := by
          rcases hinv with h | h
          · exact absurd (h2.symm.trans h) hh
          · rw [← h2]; exact h
        simp only [h2, if_true, hst]
        exact ih hrest hide.1 st _ (Or.inr hst)
      · simp only [h2, if_false]
        cases hst : stat_users cfg env hide.1 users with
        | none => exact ih hrest prev st m hinv
        | some uid => exact ih hrest hide.1 uid _ (Or.inr hst)

/-- The index built by `update_uid_map` equals the rebuild without the shortcut
for every registry in which no package name is empty. -/
theorem update_uid_map_eq_rebuild (cfg : Config) (env : Env) (users : List Name) (s : State)
    (hz : cfg.zygisk_enabled = true) (hu : env.users = some users)
    (hne : ∀ e ∈ s.hide_set, e.1 ≠ []) :
    (update_uid_map cfg env s).uid_proc_map
      = rebuild_no_shortcut cfg env users s.hide_set [] := by
  unfold update_uid_map
  simp only [hz, hu, Bool.not_true, Bool.false_eq_true, if_false]
  exact uid_map_loop_eq_rebuild cfg env users s.hide_set hne [] env.st_uid0 [] (Or.inl rfl)

/-- C14 (failing input): the store holds a row with an empty package name and
process `p`; no package directory exists. Enabling loads the row, and the
rebuild takes the shortcut at the first entry, because the initial `prev_pkg`
is empty too: the process is filed under the app id of the uninitialised
`st.st_uid` (4242 here), while the rebuild without the shortcut files nothing. -/
theorem shortcut_on_empty_package :
    (launch_magiskhide cfg0 env_no_dirs false (State.initial db_empty_pkg)).map
        (fun r => (r.1, r.2.hide_set))
      = some (Code.DAEMON_SUCCESS, [([], "p".toList), (GMS_PKG, SNET_PROC)]) ∧
    (launch_magiskhide cfg0 env_no_dirs false (State.initial db_empty_pkg)).map
        (fun r => r.2.uid_proc_map)
      = some [(4242, ["p".toList])] ∧
    (launch_magiskhide cfg0 env_no_dirs false (State.initial db_empty_pkg)).map
        (fun r => rebuild_no_shortcut cfg0 env_no_dirs ["0".toList] r.2.hide_set [])
      = some [] :=
  ⟨by decide, by decide, by decide⟩

/-! ## Where the entries come from -/

theorem rm_list_keeps_rows (env : Env) (pkg proc : Name) (s : State) (row : HideEntry)
    (hr : row ∈ s.db.hidelist) (hm : rm_match pkg proc row = false) :
    row ∈ (rm_list env pkg proc s).2.db.hidelist := by
  have hm2 : ¬ (row.1 = pkg ∧ (proc = [] ∨ row.2 = proc)) := by
    intro h
    have : rm_match pkg proc row = true := by
      unfold rm_match
      rcases h with ⟨h1, h2 | h2⟩
      · simp [h1, h2]
      · simp [h1, h2]
    rw [hm] at this
    cases this
  unfold rm_list
  simp only []
  split
  · exact hr
  · by_cases hp : proc = []
    · cases hdb : env.db_ok
      · simp [hp, db_exec, hr]
      · simp only [hp, if_true, db_exec, List.mem_filter]
        exact ⟨hr, by simpa using fun h1 => hm2 ⟨h1, Or.inl hp⟩⟩
    · cases hdb : env.db_ok
      · simp [hp, db_exec, hr]
      · simp only [hp, if_false, db_exec, if_true, List.mem_filter]
        refine ⟨hr, ?_⟩
        have hm3 : ¬ row.1 = pkg ∨ ¬ row.2 = proc := by
          by_cases h1 : row.1 = pkg
          · exact Or.inr (fun h2 => hm2 ⟨h1, Or.inr h2⟩)
          · exact Or.inl h1
        simpa using hm3

/-- Every operation that returns keeps `hide_set` ordered and made of rows of
the store and default entries. -/
theorem step_backed (cfg : Config) (s : State) (c : Op × Env) (r : Code × State)
    (hr : step cfg s c = some r)
    (hb : backed cfg s) (hs : set_sorted s.hide_set) :
    backed cfg r.2 ∧ set_sorted r.2.hide_set := by
  obtain ⟨op, env⟩ := c
  cases op with
  | add pkg proc =>
    simp only [step] at hr
    obtain ⟨r0, hr0, hr1⟩ := (add_list_client_some cfg env pkg proc s r).1 hr
    have hcl : r.2.hide_set = r0.2.hide_set ∧ r.2.db = r0.2.db := by
      rw [hr1]
      split
      · exact ⟨(update_uid_map_fields _ _ _).2.1, (update_uid_map_fields _ _ _).2.2.1⟩
      · exact ⟨rfl, rfl⟩
    unfold backed
    rw [hcl.1, hcl.2]
    obtain ⟨_, _, _, hcase⟩ := add_list_sets cfg env pkg proc s r0 hr0
    rcases hcase with ⟨_, h1, h2, _⟩ | ⟨_, _, _, _, h1, h2, _⟩
    · rw [h1, h2]
      exact ⟨hb, hs⟩
    · rw [h1, h2]
      refine ⟨?_, set_sorted_emplace _ _ hs⟩
      intro e he
      rcases (mem_set_emplace _ e _).1 he with rfl | he
      · exact Or.inl (by simp)
      · rcases hb e he with h | h
        · exact Or.inl (List.mem_append_left _ h)
        · exact Or.inr h
  | remove pkg proc =>
    simp only [step, Option.some.injEq] at hr
    subst hr
    have hcl : (rm_list_client cfg env pkg proc s).2.db = (rm_list env pkg proc s).2.db := by
      unfold rm_list_client
      simp only []
      split
      · exact (update_uid_map_fields _ _ _).2.2.1
      · rfl
    unfold backed
    simp only [rm_list_client_hide_set, hcl, rm_list_hide_set]
    refine ⟨?_, ?_⟩
    · intro e he
      rw [List.mem_filter] at he
      rcases hb e he.1 with h | h
      · exact Or.inl (rm_list_keeps_rows env pkg proc s e h (by simpa using he.2))
      · exact Or.inr h
    · exact List.Pairwise.filter _ hs
  | enable late_props =>
    simp only [step] at hr
    obtain ⟨h1, _, h2, _⟩ := launch_magiskhide_spec cfg env late_props s r hr
    unfold backed
    rw [h1]
    rcases h2 with h2 | ⟨r0, hr0, h2, _⟩
    · rw [h2]
      exact ⟨hb, hs⟩
    · obtain ⟨_, _, _, _, _, _, _, added, ha, hset⟩ := init_list_spec cfg env _ r0 hr0
      simp only at ha hset
      rw [h2, hset]
      refine ⟨?_, set_sorted_emplace_rows _ _ hs⟩
      intro e he
      rcases (mem_emplace_rows added s.hide_set e).1 he with he | he
      · exact ha e he
      · exact hb e he
  | disable =>
    simp only [step, Option.some.injEq] at hr
    subst hr
    unfold backed
    simp only [stop_magiskhide, (update_hide_config_fields _ _ _).2.1,
      update_hide_config_hidelist]
    by_cases hst : s.hide_state = true
    · simp [hst, set_sorted]
    · simp only [hst, if_false]
      exact ⟨hb, hs⟩

theorem run_backed (cfg : Config) (trace : List (Op × Env)) :
    ∀ s st : State, run cfg s trace = some st → backed cfg s → set_sorted s.hide_set →
      backed cfg st ∧ set_sorted st.hide_set := by
  induction trace with
  | nil =>
    intro s st h hb hs
    simp only [run, Option.some.injEq] at h
    subst h
    exact ⟨hb, hs⟩
  | cons c rest ih =>
    intro s st h hb hs
    simp only [run, Option.bind_eq_some] at h
    obtain ⟨r, hr, hst⟩ := h
    obtain ⟨h1, h2⟩ := step_backed cfg s c r hr hb hs
    exact ih r.2 st hst h1 h2

/-- After `launch_magiskhide` has returned `DAEMON_SUCCESS`, `hide_set` is the
old set with every row of the store and then the default entries put in. -/
theorem launch_magiskhide_hide_set (cfg : Config) (env : Env) (late_props : Bool)
    (s s1 : State)
    (h : launch_magiskhide cfg env late_props s = some (Code.DAEMON_SUCCESS, s1)) :
    s1.hide_set =
      (if cfg.MAGISKTMP ≠ "/sbin".toList then
        set_emplace (GMS_PKG, GMS_PKG)
          (set_emplace (GMS_PKG, SNET_PROC) (emplace_rows s.db.hidelist s.hide_set))
      else set_emplace (GMS_PKG, SNET_PROC) (emplace_rows s.db.hidelist s.hide_set)) := by
  obtain ⟨_, _, _, _, r0, hr0, hok, hset⟩ :=
    (launch_magiskhide_spec cfg env late_props s _ h).2.2.2 rfl
  obtain ⟨_, _, _, _, _, _, hform, _⟩ := init_list_spec cfg env _ r0 hr0
  have hf := hform hok
  simp only at hf hset
  rw [hset, hf]

/-- C15 (counterexample): the store holds the row `(badname, x)`, which
`validate` rejects; after a successful enable the row is in `hide_set`. -/
theorem enable_loads_invalid_row :
    validate cfg0 "badname".toList "x".toList = false ∧
    (launch_magiskhide cfg0 env0 false (State.initial db_bad)).map
        (fun r => (r.1, r.2.hide_set))
      = some (Code.DAEMON_SUCCESS, [("badname".toList, "x".toList), (GMS_PKG, SNET_PROC)]) ∧
    ("badname".toList, "x".toList) ∈
      [("badname".toList, "x".toList), (GMS_PKG, SNET_PROC)] :=
  ⟨by decide, by decide, by decide⟩

/-- C15 (amended): on enable each row loaded from the store is put into
`hide_set` by `add_hide_set`, the insertion step of add, without validation:
after a successful enable `hide_set` is the old set with every row of the store
and then the default entries put in by `emplace`, so every row of the store is
in it, whether `validate` accepts the row or not. -/
theorem enable_loads_rows (cfg : Config) (env : Env) (late_props : Bool) (s s1 : State)
    (h : launch_magiskhide cfg env late_props s = some (Code.DAEMON_SUCCESS, s1)) :
    s1.hide_set =
      (if cfg.MAGISKTMP ≠ "/sbin".toList then
        set_emplace (GMS_PKG, GMS_PKG)
          (set_emplace (GMS_PKG, SNET_PROC) (emplace_rows s.db.hidelist s.hide_set))
      else set_emplace (GMS_PKG, SNET_PROC) (emplace_rows s.db.hidelist s.hide_set)) ∧
    (∀ row ∈ s.db.hidelist, row ∈ s1.hide_set) ∧
    (∀ row ∈ s.db.hidelist, validate cfg row.1 row.2 = false → row ∈ s1.hide_set) := by
  have hform := launch_magiskhide_hide_set cfg env late_props s s1 h
  have hmem : ∀ row ∈ s.db.hidelist, row ∈ s1.hide_set := by
    intro row hrow
    rw [hform]
    have h0 : row ∈ emplace_rows s.db.hidelist s.hide_set :=
      (mem_emplace_rows _ _ _).2 (Or.inl hrow)
    have h1 : row ∈ set_emplace (GMS_PKG, SNET_PROC) (emplace_rows s.db.hidelist s.hide_set) :=
      (mem_set_emplace _ _ _).2 (Or.inr h0)
    split
    · exact (mem_set_emplace _ _ _).2 (Or.inr h1)
    · exact h1
  exact ⟨hform, hmem, fun row hrow _ => hmem row hrow⟩

/-- Witness for C15: enabling over the store that holds `(badname, x)`. -/
theorem enable_loads_rows_witness :
    (∃ s1, launch_magiskhide cfg0 env0 false (State.initial db_bad)
      = some (Code.DAEMON_SUCCESS, s1) ∧ ("badname".toList, "x".toList) ∈ s1.hide_set) :=
  ⟨((launch_magiskhide cfg0 env0 false (State.initial db_bad)).getD
      (Code.DAEMON_ERROR, State.initial db_bad)).2, rfl,
   (enable_loads_rows cfg0 env0 false (State.initial db_bad) _ rfl).2.1
     ("badname".toList, "x".toList) (by decide)⟩

/-- C16: in every state reached from the initial state by add, remove, enable
and disable, a `launch_magiskhide` that returns `DAEMON_SUCCESS` leaves in
`hide_set` every row of the store and the default entry of `GMS_PKG` with
`SNET_PROC`, and also the entry of `GMS_PKG` with itself when `MAGISKTMP` is
not `/sbin`; when the store has no row and `MAGISKTMP` is `/sbin`, `hide_set`
is exactly the one default entry. -/
theorem enable_seeds_defaults (cfg : Config) (db : Db) (trace : List (Op × Env)) (env : Env)
    (late_props : Bool) (s s1 : State)
    (hrun : run cfg (State.initial db) trace = some s)
    (h : launch_magiskhide cfg env late_props s = some (Code.DAEMON_SUCCESS, s1)) :
    (∀ row ∈ s.db.hidelist, row ∈ s1.hide_set) ∧
    (GMS_PKG, SNET_PROC) ∈ s1.hide_set ∧
    (cfg.MAGISKTMP ≠ "/sbin".toList → (GMS_PKG, GMS_PKG) ∈ s1.hide_set) ∧
    (s.db.hidelist = [] → cfg.MAGISKTMP = "/sbin".toList →
      s1.hide_set = [(GMS_PKG, SNET_PROC)]) := by
  obtain ⟨hb, hs⟩ := run_backed cfg trace (State.initial db) s hrun
    (fun e he => by simp [State.initial] at he) (by simp [State.initial, set_sorted])
  rw [launch_magiskhide_hide_set cfg env late_props s s1 h]
  refine ⟨?_, ?_, ?_, ?_⟩
  · intro row hrow
    have h0 : row ∈ emplace_rows s.db.hidelist s.hide_set :=
      (mem_emplace_rows _ _ _).2 (Or.inl hrow)
    have h1 : row ∈ set_emplace (GMS_PKG, SNET_PROC) (emplace_rows s.db.hidelist s.hide_set) :=
      (mem_set_emplace _ _ _).2 (Or.inr h0)
    split
    · exact (mem_set_emplace _ _ _).2 (Or.inr h1)
    · exact h1
  · have h1 : (GMS_PKG, SNET_PROC) ∈
        set_emplace (GMS_PKG, SNET_PROC) (emplace_rows s.db.hidelist s.hide_set) :=
      (mem_set_emplace _ _ _).2 (Or.inl rfl)
    split
    · exact (mem_set_emplace _ _ _).2 (Or.inr h1)
    · exact h1
  · intro hm
    rw [if_pos hm]
    exact (mem_set_emplace _ _ _).2 (Or.inl rfl)
  · intro hempty hm
    have hm2 : ¬ cfg.MAGISKTMP ≠ "/sbin".toList := fun hne => hne hm
    rw [if_neg hm2, hempty]
    apply set_emplace_of_all_eq _ _ hs
    intro e he
    rcases hb e he with h1 | h1
    · rw [hempty] at h1
      cases h1
    · rcases h1 with h1 | ⟨h1, _⟩
      · exact h1
      · exact absurd hm h1

/-- Witness for C16: the first enable after daemon start over an empty store,
with `MAGISKTMP` equal to `/sbin`. -/
theorem enable_seeds_defaults_witness :
    run cfg0 (State.initial db0) [] = some (State.initial db0) ∧
    launch_magiskhide cfg0 env0 false (State.initial db0)
      = some (Code.DAEMON_SUCCESS, st_on) ∧
    st_on.hide_set = [(GMS_PKG, SNET_PROC)] :=
  ⟨rfl, rfl,
   (enable_seeds_defaults cfg0 db0 [] env0 false (State.initial db0) st_on rfl rfl).2.2.2
     rfl rfl⟩

/-! ## The zygote scan -/

theorem zygote_filter_eq (dp : ProcEntry) :
    (decide (0 < dp.pid) && proc_name_match str_ends_safe dp "_zygote".toList)
      = zygote_target dp := by
  unfold zygote_target proc_name_match str_ends_safe str_ends
  generalize "webview_zygote".toList = w
  generalize "_zygote".toList = z
  cases dp.buf with
  | none => rfl
  | some buf =>
    by_cases hb : buf = w
    · simp [hb]
    · have hbeq : (buf == w) = false := by simpa using hb
      simp [hb, bne, hbeq]

/-- The scan for app zygotes kills the entries that `zygote_target` selects, in
the order of the table. -/
theorem kill_process_zygote (ps : List ProcEntry) (k : List Int) :
    kill_process ps "_zygote".toList true (proc_name_match str_ends_safe) k =
      k ++ (ps.filter zygote_target).map (fun dp => dp.pid) := by
  have hf : (fun dp : ProcEntry =>
      decide (0 < dp.pid) && proc_name_match str_ends_safe dp "_zygote".toList)
      = zygote_target := funext zygote_filter_eq
  rw [crawl_kill_multi, hf]

/-- After an `init_list` that returns with success on Android 10 or later with
the injection layer active, every entry that `zygote_target` selects is in the
kill list. -/
theorem init_list_kills_zygotes (cfg : Config) (env : Env) (s : State) (r : Bool × State)
    (hsdk : 29 ≤ cfg.SDK_INT) (hz : cfg.zygisk_enabled = true)
    (hr : init_list cfg env s = some r) (hok : r.1 = true) :
    ∀ dp ∈ env.procs, zygote_target dp = true → dp.pid ∈ r.2.killed := by
  have hsel : env.select_fail = none := by
    have h1 := (init_list_spec cfg env s r hr).1
    rw [hok] at h1
    cases hs : env.select_fail with
    | none => rfl
    | some n =>
      rw [hs] at h1
      cases h1
  intro dp hdp htarget
  unfold init_list at hr
  simp only [] at hr
  rw [Option.bind_eq_some] at hr
  obtain ⟨s2, _, hr⟩ := hr
  simp only [hsel, Option.isSome_none, Bool.false_eq_true, if_false, Option.map_eq_some',
    Option.bind_eq_some] at hr
  obtain ⟨s5, ⟨s3, hs3, hs5⟩, hr⟩ := hr
  subst hr
  have hk := (kill_pools_spec cfg env s2 s3 hs3).2.2.2 hsdk hz
  obtain ⟨_, ⟨_, _, _, _, _, _, more, hmore⟩, _⟩ := seed_defaults_spec cfg env s3 s5 hs5
  show dp.pid ∈ s5.killed
  rw [hmore, hk, kill_process_zygote]
  apply List.mem_append_left
  apply List.mem_append_right
  exact List.mem_map.2 ⟨dp, List.mem_filter.2 ⟨hdp, htarget⟩, rfl⟩

/-- After `launch_magiskhide` has returned `DAEMON_SUCCESS`, the kill list is
the one that its successful `init_list` left. -/
theorem launch_magiskhide_killed (cfg : Config) (env : Env) (late_props : Bool)
    (s s1 : State)
    (h : launch_magiskhide cfg env late_props s = some (Code.DAEMON_SUCCESS, s1)) :
    ∃ r0, init_list cfg env { s with procfp := true } = some r0 ∧ r0.1 = true ∧
      s1.killed = r0.2.killed := by
  unfold launch_magiskhide at h
  simp only [] at h
  by_cases h1 : s.hide_state = true
  · rw [if_pos h1, Option.some.injEq] at h
    cases h
  · rw [if_neg h1] at h
    by_cases h2 : (!env.ns_ok) = true
    · rw [if_pos h2, Option.some.injEq] at h
      cases h
    · rw [if_neg h2] at h
      by_cases h3 : (!s.procfp && !env.opendir_ok) = true
      · rw [if_pos h3, Option.some.injEq] at h
        cases h
      · rw [if_neg h3, Option.map_eq_some'] at h
        obtain ⟨r0, hr0, hr⟩ := h
        by_cases h4 : (!r0.1) = true
        · rw [if_pos h4] at hr
          cases hr
        · rw [if_neg h4] at hr
          by_cases h5 : (!env.thread_ok) = true
          · rw [if_pos h5] at hr
            cases hr
          · rw [if_neg h5, Prod.mk.injEq] at hr
            refine ⟨r0, hr0, by simpa using h4, ?_⟩
            rw [← hr.2]
            exact (launch_finish_fields cfg env r0.2).2.2.2.2.2

/-- C17: `str_ends_safe` is false on `webview_zygote` and is `str_ends` on every
other string. The scan `kill_process("_zygote", true,
proc_name_match<str_ends_safe>)` sends `SIGKILL` to exactly the entries with a
positive pid whose command line ends in `_zygote` and is not `webview_zygote`.
When `SDK_INT` is at least 29 and the injection layer is active, `init_list`
called with `procfp` open, as `launch_magiskhide` calls it, returns with
success and every such entry is in the kill list; so it is after every
`launch_magiskhide` that returns `DAEMON_SUCCESS`, from any state. -/
theorem zygote_scan_spares_webview (cfg : Config) (env : Env) (s : State)
    (procs : List ProcEntry) (killed : List Int) :
    (∀ ss : Name, str_ends_safe "webview_zygote".toList ss = false) ∧
    (∀ s1 ss : Name, s1 ≠ "webview_zygote".toList → str_ends_safe s1 ss = str_ends s1 ss) ∧
    kill_process procs "_zygote".toList true (proc_name_match str_ends_safe) killed =
      killed ++ (procs.filter zygote_target).map (fun dp => dp.pid) ∧
    (29 ≤ cfg.SDK_INT → cfg.zygisk_enabled = true → env.select_fail = none →
      s.procfp = true →
      ∃ r, init_list cfg env s = some r ∧ r.1 = true ∧
        ∀ dp ∈ env.procs, zygote_target dp = true → dp.pid ∈ r.2.killed) ∧
    (29 ≤ cfg.SDK_INT → cfg.zygisk_enabled = true →
      ∀ (late_props : Bool) (s1 : State),
        launch_magiskhide cfg env late_props s = some (Code.DAEMON_SUCCESS, s1) →
        ∀ dp ∈ env.procs, zygote_target dp = true → dp.pid ∈ s1.killed) ∧
    kill_process procs_zygote "_zygote".toList true (proc_name_match str_ends_safe) []
      = [201] := by
  refine ⟨?_, ?_, kill_process_zygote procs killed, ?_, ?_, by decide⟩
  · intro ss
    unfold str_ends_safe
    generalize "webview_zygote".toList = w
    simp
  · intro s1 ss
    unfold str_ends_safe
    generalize "webview_zygote".toList = w
    intro hne
    simp [hne]
  · intro hsdk hz hsel hp
    obtain ⟨r, hr⟩ := init_list_returns cfg env s (Or.inr hp)
    have hok : r.1 = true := by
      rw [(init_list_spec cfg env s r hr).1, hsel]
      rfl
    exact ⟨r, hr, hok, init_list_kills_zygotes cfg env s r hsdk hz hr hok⟩
  · intro hsdk hz late_props s1 h dp hdp htarget
    obtain ⟨r0, hr0, hok, hk⟩ := launch_magiskhide_killed cfg env late_props s s1 h
    rw [hk]
    exact init_list_kills_zygotes cfg env _ r0 hsdk hz hr0 hok dp hdp htarget

/-- Witness for C17: with an app zygote, the webview zygote and a shell running,
the first `launch_magiskhide` on Android 11 with the injection layer active
kills the app zygote and neither of the others. -/
theorem zygote_scan_spares_webview_witness :
    zygote_target { pid := 201, buf := some "com.android.chrome_zygote".toList } = true ∧
    (launch_magiskhide cfg0 { env0 with procs := procs_zygote } false
      (State.initial db0)).map (fun r => (r.1, r.2.killed))
      = some (Code.DAEMON_SUCCESS, [201]) ∧
    ∃ s1, launch_magiskhide cfg0 { env0 with procs := procs_zygote } false
        (State.initial db0) = some (Code.DAEMON_SUCCESS, s1) ∧
      (201 : Int) ∈ s1.killed :=
  ⟨by decide, by decide,
   ((launch_magiskhide cfg0 { env0 with procs := procs_zygote } false
      (State.initial db0)).getD (Code.DAEMON_ERROR, State.initial db0)).2, rfl,
   (zygote_scan_spares_webview cfg0 { env0 with procs := procs_zygote }
      (State.initial db0) [] []).2.2.2.2.1 (by decide) rfl false _ rfl
      { pid := 201, buf := some "com.android.chrome_zygote".toList } (by decide) (by decide)⟩

/-! ## The default process name -/

/-- C18: an empty process name stands for the package name. `add_list` of a
package with an empty process returns the same code and the same state,
`hide_set` and the row of the store included, as `add_list` of the package with
the package name as process, and so does the command `add_list(int client)`.
Validation and the duplicate test look at the pair of the package with itself:
the call returns `HIDE_INVALID_PKG` exactly when `validate` rejects that pair,
and `HIDE_ITEM_EXIST` exactly when `validate` accepts it and it is in
`hide_set`. -/
theorem empty_process_defaults (cfg : Config) (env : Env) (pkg : Name) (s : State) :
    add_list cfg env pkg [] s = add_list cfg env pkg pkg s ∧
    add_list_client cfg env pkg [] s = add_list_client cfg env pkg pkg s ∧
    ((add_list cfg env pkg [] s).map (fun r => r.1) = some Code.HIDE_INVALID_PKG ↔
      validate cfg pkg pkg = false) ∧
    ((add_list cfg env pkg [] s).map (fun r => r.1) = some Code.HIDE_ITEM_EXIST ↔
      validate cfg pkg pkg = true ∧ (pkg, pkg) ∈ s.hide_set) ∧
    (∀ r, add_list cfg env pkg [] s = some r → r.1 = Code.DAEMON_SUCCESS →
      (pkg, pkg) ∈ r.2.hide_set ∧ (pkg, pkg) ∈ r.2.db.hidelist) := by
  have heq : add_list cfg env pkg [] s = add_list cfg env pkg pkg s := by
    unfold add_list
    by_cases hp : pkg = []
    · rw [hp]
    · simp only [hp, if_false, if_true]
  have hcl : add_list_client cfg env pkg [] s = add_list_client cfg env pkg pkg s := by
    unfold add_list_client
    rw [heq]
  have hd : (if ([] : Name) = [] then pkg else []) = pkg := if_pos rfl
  have hcode : ∀ c : Code, (add_list cfg env pkg [] s).map (fun r => r.1) = some c →
      (c = Code.HIDE_INVALID_PKG ∧ validate cfg pkg pkg = false) ∨
      (c = Code.HIDE_ITEM_EXIST ∧ validate cfg pkg pkg = true ∧ (pkg, pkg) ∈ s.hide_set) ∨
      (c = Code.DAEMON_ERROR ∧ validate cfg pkg pkg = true ∧ (pkg, pkg) ∉ s.hide_set) ∨
      (c = Code.DAEMON_SUCCESS ∧ validate cfg pkg pkg = true ∧ (pkg, pkg) ∉ s.hide_set) := by
    intro c hc
    by_cases hv : validate cfg pkg pkg = true
    · have hv2 : validate cfg pkg (if ([] : Name) = [] then pkg else []) = true := by
        rw [hd]; exact hv
      by_cases hn : (pkg, pkg) ∈ s.hide_set
      · have hn2 : (pkg, (if ([] : Name) = [] then pkg else [])) ∈ s.hide_set := by
          rw [hd]; exact hn
        rw [add_list_exist cfg env pkg [] s hv2 hn2] at hc
        simp only [Option.map_some', Option.some.injEq] at hc
        exact Or.inr (Or.inl ⟨hc.symm, hv, hn⟩)
      · have hn2 : (pkg, (if ([] : Name) = [] then pkg else [])) ∉ s.hide_set := by
          rw [hd]; exact hn
        cases hdb : env.db_ok
        · rw [add_list_db_fail cfg env pkg [] s hv2 hn2 hdb] at hc
          simp only [Option.map_some', Option.some.injEq] at hc
          exact Or.inr (Or.inr (Or.inl ⟨hc.symm, hv, hn⟩))
        · rw [add_list_success cfg env pkg [] s hv2 hn2 hdb, Option.map_map,
            Option.map_eq_some'] at hc
          obtain ⟨t, _, ht⟩ := hc
          exact Or.inr (Or.inr (Or.inr ⟨ht.symm, hv, hn⟩))
    · have hvf : validate cfg pkg pkg = false := by simpa using hv
      have hv2 : validate cfg pkg (if ([] : Name) = [] then pkg else []) = false := by
        rw [hd]; exact hvf
      rw [add_list_invalid cfg env pkg [] s hv2] at hc
      simp only [Option.map_some', Option.some.injEq] at hc
      exact Or.inl ⟨hc.symm, hvf⟩
  refine ⟨heq, hcl, ?_, ?_, ?_⟩
  · constructor
    · intro hc
      rcases hcode _ hc with ⟨_, h⟩ | ⟨h, _⟩ | ⟨h, _⟩ | ⟨h, _⟩
      · exact h
      · cases h
      · cases h
      · cases h
    · intro hvf
      have hv2 : validate cfg pkg (if ([] : Name) = [] then pkg else []) = false := by
        rw [hd]; exact hvf
      rw [add_list_invalid cfg env pkg [] s hv2]
      rfl
  · constructor
    · intro hc
      rcases hcode _ hc with ⟨h, _⟩ | ⟨_, h⟩ | ⟨h, _⟩ | ⟨h, _⟩
      · cases h
      · exact h
      · cases h
      · cases h
    · intro ⟨hv, hn⟩
      have hv2 : validate cfg pkg (if ([] : Name) = [] then pkg else []) = true := by
        rw [hd]; exact hv
      have hn2 : (pkg, (if ([] : Name) = [] then pkg else [])) ∈ s.hide_set := by
        rw [hd]; exact hn
      rw [add_list_exist cfg env pkg [] s hv2 hn2]
      rfl
  · intro r hr hc
    obtain ⟨_, _, _, hcase⟩ := add_list_sets cfg env pkg [] s r hr
    rcases hcase with ⟨h, _⟩ | ⟨_, _, _, _, h1, h2, _⟩
    · exact absurd hc h
    · rw [h1, h2, hd]
      exact ⟨(mem_set_emplace _ _ _).2 (Or.inl rfl), by simp⟩

/-! ## The index is derived from the registry -/

theorem mem_map_append (m : List (Int × List Name)) (k : Int) (v : Name)
    (p : Int × List Name) (hp : p ∈ map_append m k v) :
    (p.1 = k ∧ (p.2 = [v] ∨ ∃ old, (k, old) ∈ m ∧ p.2 = old ++ [v])) ∨ p ∈ m := by
  induction m with
  | nil =>
    simp only [map_append, List.mem_singleton] at hp
    rw [hp]
    exact Or.inl ⟨rfl, Or.inl rfl⟩
  | cons q rest ih =>
    obtain ⟨k0, vs⟩ := q
    unfold map_append at hp
    by_cases h1 : k < k0
    · rw [if_pos h1] at hp
      rcases List.mem_cons.1 hp with rfl | hp
      · exact Or.inl ⟨rfl, Or.inl rfl⟩
      · exact Or.inr hp
    · rw [if_neg h1] at hp
      by_cases h2 : k0 < k
      · rw [if_pos h2] at hp
        rcases List.mem_cons.1 hp with rfl | hp
        · exact Or.inr (List.mem_cons_self _ _)
        · rcases ih hp with ⟨e1, e2⟩ | h
          · refine Or.inl ⟨e1, ?_⟩
            rcases e2 with e2 | ⟨old, ho, e2⟩
            · exact Or.inl e2
            · exact Or.inr ⟨old, List.mem_cons_of_mem _ ho, e2⟩
          · exact Or.inr (List.mem_cons_of_mem _ h)
      · rw [if_neg h2] at hp
        have hk : k0 = k := by omega
        rcases List.mem_cons.1 hp with rfl | hp
        · exact Or.inl ⟨hk, Or.inr ⟨vs, by rw [hk]; exact List.mem_cons_self _ _, rfl⟩⟩
        · exact Or.inr (List.mem_cons_of_mem _ hp)

theorem map_find_mem (m : List (Int × List Name)) (k : Int) (names : List Name)
    (h : map_find m k = some names) : (k, names) ∈ m := by
  induction m with
  | nil => simp [map_find] at h
  | cons q rest ih =>
    obtain ⟨k0, vs⟩ := q
    unfold map_find at h
    by_cases hk : k0 = k
    · rw [if_pos hk] at h
      cases h
      rw [hk]
      exact List.mem_cons_self _ _
    · rw [if_neg hk] at h
      exact List.mem_cons_of_mem _ (ih h)

theorem index_sound_append (cfg : Config) (registry : List HideEntry)
    (m : List (Int × List Name)) (k : Int) (hide : HideEntry)
    (hm : index_sound cfg registry m) (hin : hide ∈ registry)
    (hk : k = -1 ↔ hide.1 = cfg.ISOLATED_MAGIC) :
    index_sound cfg registry (map_append m k hide.2) := by
  intro p hp
  rcases mem_map_append m k hide.2 p hp with ⟨e1, e2⟩ | h
  · rcases e2 with e2 | ⟨old, ho, e2⟩
    · rw [e2]
      refine ⟨by simp, ?_⟩
      intro n hn
      rw [List.mem_singleton] at hn
      exact ⟨hide, hin, hn.symm, by rw [e1]; exact hk⟩
    · rw [e2]
      refine ⟨by simp, ?_⟩
      intro n hn
      rcases List.mem_append.1 hn with hn | hn
      · obtain ⟨e, he, h1, h2⟩ := (hm (k, old) ho).2 n hn
        exact ⟨e, he, h1, by rw [e1]; exact h2⟩
      · rw [List.mem_singleton] at hn
        exact ⟨hide, hin, hn.symm, by rw [e1]; exact hk⟩
  · exact hm p h

theorem to_app_id_ofNat_ne (n : Nat) : ¬ (to_app_id (Int.ofNat n) = -1) := by
  unfold to_app_id
  have h0 : 0 ≤ Int.tmod (Int.ofNat n) 100000 := Int.tmod_nonneg 100000 (Int.ofNat_nonneg n)
  intro h
  omega

theorem uid_map_loop_sound (cfg : Config) (env : Env) (users : List Name)
    (registry : List HideEntry) (l : List HideEntry) :
    (∀ e ∈ l, e ∈ registry) →
    ∀ (prev_pkg : Name) (st_uid : Nat) (m : List (Int × List Name)),
      index_sound cfg registry m →
      index_sound cfg registry (uid_map_loop cfg env users l prev_pkg st_uid m) := by
  induction l with
  | nil => intro _ _ _ m hm; exact hm
  | cons hide rest ih =>
    intro hsub prev st m hm
    have hrest : ∀ e ∈ rest, e ∈ registry := fun e he => hsub e (List.mem_cons_of_mem _ he)
    have hin : hide ∈ registry := hsub hide (List.mem_cons_self _ _)
    unfold uid_map_loop
    by_cases h1 : hide.1 = cfg.ISOLATED_MAGIC
    · rw [if_pos h1]
      exact ih hrest _ _ _ (index_sound_append cfg registry m (-1) hide hm hin
        ⟨fun _ => h1, fun _ => rfl⟩)
    · rw [if_neg h1]
      by_cases h2 : prev = hide.1
      · rw [if_pos h2]
        exact ih hrest _ _ _ (index_sound_append cfg registry m _ hide hm hin
          ⟨fun h => absurd h (to_app_id_ofNat_ne st), fun h => absurd h h1⟩)
      · rw [if_neg h2]
        cases hst : stat_users cfg env hide.1 users with
        | none => exact ih hrest _ _ _ hm
        | some uid =>
          exact ih hrest _ _ _ (index_sound_append cfg registry m _ hide hm hin
            ⟨fun h => absurd h (to_app_id_ofNat_ne uid), fun h => absurd h h1⟩)

theorem index_names_map_append (m : List (Int × List Name)) (k : Int) (v : Name) :
    (index_names (map_append m k v)).Perm (v :: index_names m) := by
  induction m with
  | nil => simp [map_append, index_names]
  | cons q rest ih =>
    obtain ⟨k0, vs⟩ := q
    unfold map_append
    by_cases h1 : k < k0
    · rw [if_pos h1]
      simp [index_names]
    · rw [if_neg h1]
      by_cases h2 : k0 < k
      · rw [if_pos h2]
        simp only [index_names]
        exact (List.Perm.append_left vs ih).trans List.perm_middle
      · rw [if_neg h2]
        simp only [index_names, List.append_assoc, List.singleton_append]
        exact List.perm_middle

theorem uid_map_loop_names (cfg : Config) (env : Env) (users : List Name)
    (l : List HideEntry) :
    ∀ (prev_pkg : Name) (st_uid : Nat) (m : List (Int × List Name)),
      List.Subperm (index_names (uid_map_loop cfg env users l prev_pkg st_uid m))
        (l.map Prod.snd ++ index_names m) := by
  induction l with
  | nil => intro _ _ m; exact List.Subperm.refl _
  | cons hide rest ih =>
    intro prev st m
    have happ : ∀ (k : Int) (p2 : Name) (s2 : Nat),
        List.Subperm
          (index_names (uid_map_loop cfg env users rest p2 s2 (map_append m k hide.2)))
          ((hide :: rest).map Prod.snd ++ index_names m) := by
      intro k p2 s2
      refine (ih p2 s2 (map_append m k hide.2)).trans (List.Perm.subperm ?_)
      exact (List.Perm.append_left _ (index_names_map_append m k hide.2)).trans
        List.perm_middle
    have hskip : List.Subperm
        (index_names (uid_map_loop cfg env users rest prev st m))
        ((hide :: rest).map Prod.snd ++ index_names m) :=
      (ih prev st m).trans (List.Sublist.subperm (List.sublist_cons_self _ _))
    unfold uid_map_loop
    by_cases h1 : hide.1 = cfg.ISOLATED_MAGIC
    · rw [if_pos h1]
      exact happ _ _ _
    · rw [if_neg h1]
      by_cases h2 : prev = hide.1
      · rw [if_pos h2]
        exact happ _ _ _
      · rw [if_neg h2]
        cases hst : stat_users cfg env hide.1 users with
        | none => exact hskip
        | some uid => exact happ _ _ _

theorem update_uid_map_sound (cfg : Config) (env : Env) (s : State)
    (hz : cfg.zygisk_enabled = true) :
    index_sound cfg s.hide_set (update_uid_map cfg env s).uid_proc_map ∧
    List.Subperm (index_names (update_uid_map cfg env s).uid_proc_map)
      (s.hide_set.map Prod.snd) := by
  unfold update_uid_map
  simp only [hz, Bool.not_true, Bool.false_eq_true, if_false]
  cases env.users with
  | none =>
    refine ⟨(fun p hp => by cases hp), ?_⟩
    exact List.Sublist.subperm (List.nil_sublist _)
  | some users =>
    refine ⟨?_, ?_⟩
    · exact uid_map_loop_sound cfg env users s.hide_set s.hide_set (fun e he => he) _ _ []
        (fun p hp => by cases hp)
    · have := uid_map_loop_names cfg env users s.hide_set [] env.st_uid0 []
      simpa [index_names] using this

/-- C19: with the injection layer active, the index that `update_uid_map`
leaves is derived from `hide_set` alone. Every name stored under the key -1 is
the process of an entry of the isolated package, every name stored under
another key is the process of an entry of another package, the names stored in
the whole index are, with multiplicity, among the processes of the entries (an
entry puts its process in at most once), and no key maps to an empty list.
Hence after a remove command that returns `DAEMON_SUCCESS` every name in the
index is the process of an entry that the command left in `hide_set`. -/
theorem index_from_registry (cfg : Config) (env : Env) (s : State)
    (hz : cfg.zygisk_enabled = true) :
    (∀ names, map_find (update_uid_map cfg env s).uid_proc_map (-1) = some names →
      ∀ n ∈ names, ∃ e ∈ s.hide_set, e.1 = cfg.ISOLATED_MAGIC ∧ e.2 = n) ∧
    (∀ (k : Int) names, k ≠ -1 →
      map_find (update_uid_map cfg env s).uid_proc_map k = some names →
      ∀ n ∈ names, ∃ e ∈ s.hide_set, e.1 ≠ cfg.ISOLATED_MAGIC ∧ e.2 = n) ∧
    List.Subperm (index_names (update_uid_map cfg env s).uid_proc_map)
      (s.hide_set.map Prod.snd) ∧
    (∀ p ∈ (update_uid_map cfg env s).uid_proc_map, p.2 ≠ []) ∧
    (∀ pkg proc : Name, (rm_list_client cfg env pkg proc s).1 = Code.DAEMON_SUCCESS →
      ∀ p ∈ (rm_list_client cfg env pkg proc s).2.uid_proc_map, ∀ n ∈ p.2,
        ∃ e ∈ s.hide_set, rm_match pkg proc e = false ∧ e.2 = n) := by
  obtain ⟨hsound, hperm⟩ := update_uid_map_sound cfg env s hz
  refine ⟨?_, ?_, hperm, fun p hp => (hsound p hp).1, ?_⟩
  · intro names hf n hn
    obtain ⟨e, he, h1, h2⟩ := (hsound _ (map_find_mem _ _ _ hf)).2 n hn
    exact ⟨e, he, h2.1 rfl, h1⟩
  · intro k names hk hf n hn
    obtain ⟨e, he, h1, h2⟩ := (hsound _ (map_find_mem _ _ _ hf)).2 n hn
    exact ⟨e, he, fun h => hk (h2.2 h), h1⟩
  · intro pkg proc hc p hp n hn
    have hcode : (rm_list env pkg proc s).1 = Code.DAEMON_SUCCESS := by
      rw [← rm_list_client_fst cfg]; exact hc
    have hst : (rm_list_client cfg env pkg proc s).2
        = update_uid_map cfg env (rm_list env pkg proc s).2 := by
      unfold rm_list_client
      simp only [hcode, if_true]
    rw [hst] at hp
    obtain ⟨e, he, h1, _⟩ :=
      ((update_uid_map_sound cfg env (rm_list env pkg proc s).2 hz).1 p hp).2 n hn
    rw [rm_list_hide_set, List.mem_filter] at he
    exact ⟨e, he.1, by simpa using he.2, h1⟩

/-- Witness for C19: the index of the sample state, which holds one isolated
name and one process of the package `a.b`. -/
theorem index_from_registry_witness :
    cfg0.zygisk_enabled = true ∧
    (update_uid_map cfg0 env0 st_sample).uid_proc_map
      = [(-1, ["proc_abc".toList]), (10010, ["abcd".toList, SNET_PROC])] ∧
    (∀ p ∈ (update_uid_map cfg0 env0 st_sample).uid_proc_map, p.2 ≠ []) :=
  ⟨rfl, by decide, (index_from_registry cfg0 env0 st_sample rfl).2.2.2.1⟩


/-! ## Injection layer inactive -/

/-- C20: when `zygisk_enabled` is false, `update_uid_map` returns the state it
was given, index included, and add returns and sends no signal; so every
sequence of add, remove, enable and disable from the initial state runs to its
end, and in the state it reaches `uid_proc_map` is empty and `is_hide_target`
is false for every uid, process name and length. -/
theorem index_empty_without_injection (cfg : Config) (hz : cfg.zygisk_enabled = false) :
    (∀ (env : Env) (s : State), update_uid_map cfg env s = s) ∧
    (∀ (env : Env) (pkg proc : Name) (s : State),
      ∃ r, add_list cfg env pkg proc s = some r ∧
        add_list_client cfg env pkg proc s = some r ∧ r.2.killed = s.killed) ∧
    (∀ (db : Db) (trace : List (Op × Env)),
      ∃ st, run cfg (State.initial db) trace = some st ∧ st.uid_proc_map = [] ∧
        ∀ (uid : Int) (process : Name) (max_len : Int),
          is_hide_target st uid process max_len = false) := by
  have hu : ∀ (env : Env) (t : State), update_uid_map cfg env t = t := by
    intro env t
    simp [update_uid_map, hz]
  have hadd : ∀ (env : Env) (pkg proc : Name) (s : State),
      ∃ r, add_list cfg env pkg proc s = some r ∧
        add_list_client cfg env pkg proc s = some r ∧ r.2.killed = s.killed ∧
        r.2.uid_proc_map = s.uid_proc_map := by
    intro env pkg proc s
    obtain ⟨r, hr⟩ := add_list_returns cfg env pkg proc s (Or.inl hz)
    obtain ⟨_, hm, _, hcase⟩ := add_list_sets cfg env pkg proc s r hr
    refine ⟨r, hr, ?_, ?_, hm⟩
    · rw [add_list_client_some]
      refine ⟨r, hr, ?_⟩
      rw [hu]
      split <;> rfl
    · rcases hcase with ⟨_, _, _, h⟩ | ⟨_, _, _, _, _, _, h, _⟩
      · exact h
      · exact h hz
  have hstep : ∀ (s : State) (c : Op × Env), s.uid_proc_map = [] →
      ∃ r, step cfg s c = some r ∧ r.2.uid_proc_map = [] := by
    intro s c hs
    obtain ⟨op, env⟩ := c
    cases op with
    | add pkg proc =>
      obtain ⟨r, _, hr, _, hm⟩ := hadd env pkg proc s
      exact ⟨r, hr, hm.trans hs⟩
    | remove pkg proc =>
      have : (rm_list_client cfg env pkg proc s).2.uid_proc_map = s.uid_proc_map := by
        unfold rm_list_client
        simp only [hu]
        unfold rm_list
        simp only []
        split <;> split <;> rfl
      exact ⟨_, rfl, this.trans hs⟩
    | enable late_props =>
      obtain ⟨r, hr⟩ := launch_magiskhide_returns cfg env late_props s
      exact ⟨r, hr, ((launch_magiskhide_spec cfg env late_props s r hr).2.1 hz).trans hs⟩
    | disable =>
      refine ⟨_, rfl, ?_⟩
      simp only [stop_magiskhide, (update_hide_config_fields _ _ _).2.2]
      split
      · rfl
      · exact hs
  have hrun : ∀ (trace : List (Op × Env)) (s : State), s.uid_proc_map = [] →
      ∃ st, run cfg s trace = some st ∧ st.uid_proc_map = [] := by
    intro trace
    induction trace with
    | nil => intro s hs; exact ⟨s, rfl, hs⟩
    | cons c rest ih =>
      intro s hs
      obtain ⟨r, hr, hm⟩ := hstep s c hs
      obtain ⟨st, hst, hm2⟩ := ih r.2 hm
      refine ⟨st, ?_, hm2⟩
      simp only [run, hr, Option.some_bind]
      exact hst
  refine ⟨hu, ?_, ?_⟩
  · intro env pkg proc s
    obtain ⟨r, h1, h2, h3, _⟩ := hadd env pkg proc s
    exact ⟨r, h1, h2, h3⟩
  · intro db trace
    obtain ⟨st, hst, hm⟩ := hrun trace (State.initial db) rfl
    refine ⟨st, hst, hm, ?_⟩
    intro uid process max_len
    unfold is_hide_target
    rw [hm]
    simp only [map_find]
    split <;> rfl

/-- Witness for C20: with the injection layer inactive, enabling and adding
leave the index empty and a stored process is not a target. -/
theorem index_empty_without_injection_witness :
    cfg_off.zygisk_enabled = false ∧
    (run cfg_off (State.initial db0)
      [(Op.enable false, env0), (Op.add "a.b".toList "abcd".toList, env0)]).map
        (fun st => st.hide_set)
      = some [("a.b".toList, "abcd".toList), (GMS_PKG, SNET_PROC)] ∧
    ∃ st, run cfg_off (State.initial db0)
        [(Op.enable false, env0), (Op.add "a.b".toList "abcd".toList, env0)] = some st ∧
      st.uid_proc_map = [] ∧
      ∀ (uid : Int) (process : Name) (max_len : Int),
        is_hide_target st uid process max_len = false :=
  ⟨rfl, by decide,
   (index_empty_without_injection cfg_off rfl).2.2 db0
     [(Op.enable false, env0), (Op.add "a.b".toList "abcd".toList, env0)]⟩

end MagiskHide
